import Mathlib

/-!
Shallow embedding of the border-segment extraction and indexing kernel of
the Mapa repository (src/engine/src/borders/types.ts, extract.ts, api.ts,
lod.ts and src/engine/src/view/lod.ts), together with theorems about the
specified behaviour.  JS numbers are modelled as rationals, JS strings as
Lean strings, JS Maps with list values as total functions defaulting to the
empty list, thrown exceptions as Except, and the external libraries
(topojson-client and d3-geo) as oracle inputs packaged with the topology.
-/

namespace Mapa

/-- Coordinates are (longitude, latitude) pairs; JS floats are modelled as rationals. -/
abbrev Coord := ℚ × ℚ

/-- Country record (engine/src/types.ts). -/
structure Country where
  country_id : String
  name : String
  geometry_ref : String
  deriving DecidableEq

/-- Identity of a border segment (engine/src/types.ts). -/
structure BorderSegmentId where
  country_a : String
  country_b : String
  index : Nat
  deriving DecidableEq

/-- Two-tier geometry of a segment (engine/src/types.ts); the low resolution
coordinates are optional. -/
structure BorderSegmentGeometry where
  coords_hi_res : List Coord
  coords_low_res : Option (List Coord)
  deriving DecidableEq

/-- Border segment record (engine/src/types.ts); optional fields are Options. -/
structure BorderSegment where
  id : BorderSegmentId
  country_a : String
  country_b : String
  geometry : BorderSegmentGeometry
  length_km : ℚ
  is_maritime : Option Bool
  segment_id : Option String
  deriving DecidableEq

/-- Serialize a BorderSegmentId into a stable string key (borders/types.ts). -/
def formatBorderSegmentId (id : BorderSegmentId) : String :=
  id.country_a ++ "-" ++ id.country_b ++ "-" ++ Nat.repr id.index

/-- Lexicographic strict comparison of character lists, the order the JS
default sort comparator uses on strings (code-unit wise). -/
def lexLt : List Char → List Char → Bool
  | [], [] => false
  | [], _ :: _ => true
  | _ :: _, [] => false
  | a :: as, b :: bs => if a < b then true else if b < a then false else lexLt as bs

/-- Strict string comparison used by the JS default sort comparator. -/
def jsStringLt (a b : String) : Bool := lexLt a.data b.data

/-- Non-strict string comparison used by the JS default sort comparator. -/
def jsStringLe (a b : String) : Bool := !(jsStringLt b a)

/-- Result record of canonicalPair (borders/types.ts). -/
structure CanonicalPair where
  a : String
  b : String
  key : String
  deriving DecidableEq

/-- Canonicalize a country pair (borders/types.ts): a pair whose second
component is SEA is returned unchanged, any other pair is sorted
lexicographically; the key joins the two components with a dash. -/
def canonicalPair (a b : String) : CanonicalPair :=
  if b = "SEA" then { a := a, b := "SEA", key := a ++ "-SEA" }
  else
    let ca := if jsStringLe a b then a else b
    let cb := if jsStringLe a b then b else a
    { a := ca, b := cb, key := ca ++ "-" ++ cb }

/-- Attach the string id to a segment when that field is missing or empty,
mirroring the JS falsiness test on segment_id (borders/types.ts). -/
def ensureSegmentKey (segment : BorderSegment) : BorderSegment :=
  match segment.segment_id with
  | none => { segment with segment_id := some (formatBorderSegmentId segment.id) }
  | some s =>
    if s = "" then { segment with segment_id := some (formatBorderSegmentId segment.id) }
    else segment

/-- Lookup structure over a finalized segment list (borders/api.ts). -/
structure BorderIndex where
  byCountry : String → List BorderSegment
  byPair : String → List BorderSegment
  segments : List BorderSegment

/-- Push a segment onto the list stored under a key; models the push helper
of buildIndex over JS Maps (borders/api.ts). -/
def mapPush (m : String → List BorderSegment) (key : String) (seg : BorderSegment) :
    String → List BorderSegment :=
  fun k => if k = key then m k ++ [seg] else m k

/-- One step of the buildIndex scan (borders/api.ts): index the segment under
country_a, under country_b when that is not SEA, and under its pair key. -/
def buildStep (acc : (String → List BorderSegment) × (String → List BorderSegment))
    (seg : BorderSegment) : (String → List BorderSegment) × (String → List BorderSegment) :=
  let byCountry := mapPush acc.1 seg.country_a seg
  let byCountry := if seg.country_b ≠ "SEA" then mapPush byCountry seg.country_b seg else byCountry
  let byPair := mapPush acc.2 (seg.country_a ++ "-" ++ seg.country_b) seg
  (byCountry, byPair)

/-- Build the byCountry and byPair lookup maps by a single scan of the
segment list (borders/api.ts). -/
def buildIndex (segments : List BorderSegment) : BorderIndex :=
  let maps := segments.foldl buildStep (fun _ => [], fun _ => [])
  { byCountry := maps.1, byPair := maps.2, segments := segments }

/-- Error message thrown by queries on an uninitialized cache (borders/api.ts). -/
def notInitializedMsg : String :=
  "Border index not initialized. Call initializeBorderIndex first."

/-- Guard every query: fail when no index has been initialized (borders/api.ts). -/
def assertCache (cache : Option BorderIndex) : Except String BorderIndex :=
  match cache with
  | none => .error notInitializedMsg
  | some idx => .ok idx

/-- Return the whole cached index (borders/api.ts). -/
def getBorderIndex (cache : Option BorderIndex) : Except String BorderIndex :=
  assertCache cache

/-- Return the full cached segment list (borders/api.ts). -/
def getAllBorderSegments (cache : Option BorderIndex) : Except String (List BorderSegment) :=
  (assertCache cache).map fun idx => idx.segments

/-- Per-country query (borders/api.ts); a missing Map entry yields the empty list. -/
def getBorderSegmentsForCountry (cache : Option BorderIndex) (country : String) :
    Except String (List BorderSegment) :=
  (assertCache cache).map fun idx => idx.byCountry country

/-- Per-pair query (borders/api.ts): canonicalize the pair, then look up the
joined key and fall back to the canonical key and the empty list. -/
def getBorderSegmentsBetween (cache : Option BorderIndex) (a b : String) :
    Except String (List BorderSegment) :=
  let p := canonicalPair a b
  (assertCache cache).map fun idx =>
    let first := idx.byPair (p.a ++ "-" ++ p.b)
    if first ≠ [] then first else idx.byPair p.key

/-- Discrete LOD tiers (view/lod.ts). -/
inductive LODLevelName where
  | low
  | medium
  | high
  deriving DecidableEq

/-- Three-way zoom threshold (view/lod.ts). -/
def selectLOD (zoom : ℚ) : LODLevelName :=
  if zoom ≥ 3 then .high
  else if zoom ≥ 3/2 then .medium
  else .low

/-- Low LOD boundary for borders (borders/lod.ts). -/
def BORDER_LOW_LOD_LEVEL : LODLevelName := .low

/-- Pick the coordinate array for the selected tier (borders/lod.ts): the low
resolution coordinates when the tier is low and they are present and
non-empty (JS truthiness of the optional length), otherwise hi-res. -/
def getBorderSegmentGeometryForLOD (segment : BorderSegment) (zoom : ℚ) : List Coord :=
  let level := selectLOD zoom
  match segment.geometry.coords_low_res with
  | some lowRes =>
    if level = BORDER_LOW_LOD_LEVEL ∧ lowRes.length ≠ 0 then lowRes
    else segment.geometry.coords_hi_res
  | none => segment.geometry.coords_hi_res

/-! Line Simplifier (borders/extract.ts, simplifyLine): iterative stack-based
Douglas-Peucker reduction.  The keep array is modelled as a function from
indices to Bool, the work stack as a list of index ranges with its head as
the stack top. -/

/-- Accumulator of the inner maximum-deviation scan; the JS sentinel index -1
is modelled as none. -/
structure FarthestAcc where
  maxSqDist : ℚ
  idx : Option Nat
  deriving DecidableEq

/-- Squared deviation of point i from the chord between points s and e of the
line, as computed inside the scan loop of simplifyLine (borders/extract.ts):
project the point onto the chord, guarding a zero-length chord with a tiny
epsilon on the squared denominator.  The chord data depends only on the range
endpoints, so recomputing it per iteration is observationally identical to
the JS loop that hoists it. -/
def chordDistSq (coords : List Coord) (s e i : Nat) : ℚ :=
  let p0 := coords.getD s (0, 0)
  let p1 := coords.getD e (0, 0)
  let dx := p1.1 - p0.1
  let dy := p1.2 - p0.2
  let lenSq0 := dx * dx + dy * dy
  let lenSq := if lenSq0 = 0 then 1 / 1000000000000 else lenSq0
  let p := coords.getD i (0, 0)
  let t := ((p.1 - p0.1) * dx + (p.2 - p0.2) * dy) / lenSq
  let projx := p0.1 + t * dx
  let projy := p0.2 + t * dy
  let ddx := p.1 - projx
  let ddy := p.2 - projy
  ddx * ddx + ddy * ddy

/-- Record the visited index when its squared deviation strictly exceeds the
maximum so far. -/
def farthestStep (coords : List Coord) (s e : Nat) (acc : FarthestAcc) (i : Nat) : FarthestAcc :=
  let distSq := chordDistSq coords s e i
  if distSq > acc.maxSqDist then { maxSqDist := distSq, idx := some i } else acc

/-- Inner scan of simplifyLine over the indices strictly between the range
endpoints, starting from maximum 0 and no recorded index. -/
def farthestPoint (coords : List Coord) (s e : Nat) : FarthestAcc :=
  (List.range' (s + 1) (e - s - 1)).foldl (farthestStep coords s e) { maxSqDist := 0, idx := none }

/-- Termination support for the simplifier loop: a fold whose step either
keeps the recorded index or records the visited one only ever records a
visited index. -/
theorem idx_mem_of_foldl (step : FarthestAcc → Nat → FarthestAcc)
    (hstep : ∀ acc i, (step acc i).idx = acc.idx ∨ (step acc i).idx = some i) :
    ∀ (l : List Nat) (acc : FarthestAcc) (j : Nat),
      (l.foldl step acc).idx = some j → acc.idx = some j ∨ j ∈ l := by
  intro l
  induction l with
  | nil => intro acc j h; exact Or.inl h
  | cons x xs ih =>
    intro acc j h
    rcases ih (step acc x) j h with h1 | h1
    · rcases hstep acc x with h2 | h2
      · exact Or.inl (h2 ▸ h1)
      · rw [h2] at h1
        exact Or.inr (by simp [Option.some_inj.mp h1])
    · exact Or.inr (List.mem_cons_of_mem x h1)

/-- Termination support: any index recorded by the inner scan lies strictly
between the range endpoints. -/
theorem farthestPoint_idx_bounds (coords : List Coord) (s e i : Nat)
    (h : (farthestPoint coords s e).idx = some i) : s < i ∧ i < e := by
  have hstep : ∀ acc j, (farthestStep coords s e acc j).idx = acc.idx ∨
      (farthestStep coords s e acc j).idx = some j := by
    intro acc j
    unfold farthestStep
    dsimp only
    split
    · exact Or.inr rfl
    · exact Or.inl rfl
  have hmem := idx_mem_of_foldl (farthestStep coords s e) hstep
    (List.range' (s + 1) (e - s - 1)) { maxSqDist := 0, idx := none } i h
  rcases hmem with h1 | h1
  · simp at h1
  · rw [List.mem_range'_1] at h1
    omega

/-- Termination support: the exponential interval measure strictly drops when
a range splits at an interior point. -/
theorem pow3_add_lt {a b : Nat} (ha : 1 ≤ a) (hb : 1 ≤ b) : 3 ^ a + 3 ^ b < 3 ^ (a + b) := by
  have key : ∀ x y : Nat, 1 ≤ x → x ≤ y → 3 ^ x + 3 ^ y < 3 ^ (x + y) := by
    intro x y hx hxy
    have hp : (0 : ℕ) < 3 ^ y := pow_pos (by norm_num) y
    have h1 : (3 : ℕ) ^ x ≤ 3 ^ y := Nat.pow_le_pow_right (by norm_num) hxy
    have h3 : (3 : ℕ) ≤ 3 ^ x := by
      calc (3 : ℕ) = 3 ^ 1 := (pow_one 3).symm
        _ ≤ 3 ^ x := Nat.pow_le_pow_right (by norm_num) hx
    have h4 : 3 * 3 ^ y ≤ 3 ^ x * 3 ^ y := Nat.mul_le_mul_right (3 ^ y) h3
    have h5 : (3 : ℕ) ^ (x + y) = 3 ^ x * 3 ^ y := pow_add 3 x y
    omega
  rcases le_total a b with h | h
  · exact key a b ha h
  · have := key b a hb h
    rw [Nat.add_comm b a] at this
    omega

/-- Stack-driven Douglas-Peucker loop of simplifyLine (borders/extract.ts):
pop a range, find the point of maximum squared deviation from its chord, and
when that exceeds the tolerance keep the point and push the two subranges
(upper subrange on top, matching the JS array push and pop order). -/
def dpLoop (coords : List Coord) (sqTol : ℚ) (stack : List (Nat × Nat)) (keep : Nat → Bool) :
    Nat → Bool :=
  match stack with
  | [] => keep
  | (s, e) :: rest =>
    let far := farthestPoint coords s e
    match hidx : far.idx with
    | some i =>
      if far.maxSqDist > sqTol then
        dpLoop coords sqTol ((i, e) :: (s, i) :: rest) (fun k => if k = i then true else keep k)
      else
        dpLoop coords sqTol rest keep
    | none => dpLoop coords sqTol rest keep
termination_by (stack.map fun p => 3 ^ (p.2 - p.1)).sum
decreasing_by
  · have hb := farthestPoint_idx_bounds coords s e i hidx
    simp only [List.map_cons, List.sum_cons]
    have h3 : 3 ^ (e - i) + 3 ^ (i - s) < 3 ^ (e - s) := by
      have := pow3_add_lt (a := e - i) (b := i - s) (by omega) (by omega)
      have harith : e - i + (i - s) = e - s := by omega
      rw [harith] at this
      omega
    omega
  · simp only [List.map_cons, List.sum_cons]
    have : (0 : ℕ) < 3 ^ (e - s) := pow_pos (by norm_num) _
    omega

/-- Douglas-Peucker simplifier (borders/extract.ts, simplifyLine): inputs of
length at most 2 are returned unchanged; otherwise the first and last index
start as kept, the loop marks further indices, and the kept points are
emitted in their original order. -/
def simplifyLineWith (coords : List Coord) (tolerance : ℚ) : List Coord :=
  if coords.length ≤ 2 then coords
  else
    let sqTol := tolerance * tolerance
    let keepInit : Nat → Bool := fun i => i == 0 || i == coords.length - 1
    let keep := dpLoop coords sqTol [(0, coords.length - 1)] keepInit
    (coords.enum.filter fun p => keep p.1).map fun p => p.2

/-- simplifyLine with its default tolerance 0.05 (borders/extract.ts). -/
def simplifyLine (coords : List Coord) : List Coord :=
  simplifyLineWith coords (5 / 100)

/-! Segment Extractor (borders/extract.ts).  The external libraries are
modelled as oracle inputs packaged with the topology: features is the feature
collection produced by topojson feature, neighborList the adjacency produced
by topojson neighbors, sharedMeshResult and coastlineMeshResult the
geometries produced by the two mesh filters, and fallbackMultipoly the
exterior polygon rings used by the coastline fallback. -/

/-- GeoJSON line geometry as consumed by geometryLines; a missing mesh result
is modelled as none. -/
inductive LineGeometry where
  | lineString : List Coord → LineGeometry
  | multiLineString : List (List Coord) → LineGeometry
  | other : LineGeometry
  deriving DecidableEq

/-- Split a mesh result into its line strings (borders/extract.ts,
geometryLines): nothing for a missing or non-line geometry. -/
def geometryLines (geom : Option LineGeometry) : List (List Coord) :=
  match geom with
  | none => []
  | some (.lineString c) => [c]
  | some (.multiLineString cs) => cs
  | some .other => []

/-- Summed great-circle length of a line (borders/extract.ts, lineLengthKm);
the d3-geo geoDistance library function is an oracle parameter, scaled by the
mean Earth radius 6371. -/
def lineLengthKm (geoDist : Coord → Coord → ℚ) (coords : List Coord) : ℚ :=
  (coords.zip coords.tail).foldl (fun total pq => total + geoDist pq.1 pq.2 * 6371) 0

/-- A topology feature as seen by assignCountryLookup: its id (already
stringified) and its properties name, each possibly absent. -/
structure Feature where
  id : Option String
  name : Option String
  deriving DecidableEq

/-- Topology input together with the oracle outputs of topojson-client on it.
Geometries are identified by their index in the resolved geometry list;
objects maps each object key to its geometry count, none when the geometries
array is missing. -/
structure Topology where
  objects : List (String × Option Nat)
  features : Nat → Feature
  neighborList : Nat → List Nat
  sharedMeshResult : Nat → Nat → Option LineGeometry
  coastlineMeshResult : Nat → Option LineGeometry
  fallbackMultipoly : Nat → List (List (List Coord))

/-- Character-wise lower casing, modelling the JS toLowerCase call. -/
def jsToLower (s : String) : String := ⟨s.data.map Char.toLower⟩

/-- Key filter used to resolve the countries object (borders/extract.ts):
the lower-cased key must contain the substring country. -/
def countryLikeKey (k : String) : Bool :=
  decide ("country".data <:+: (jsToLower k).data)

/-- Resolve the countries object (borders/extract.ts): the first object whose
key is country-like, else the first object present, else nothing. -/
def resolveCountryObject (topo : Topology) : Option (String × Option Nat) :=
  (topo.objects.find? fun kv => countryLikeKey kv.1) <|> topo.objects.head?

/-- Geometry-to-country lookup (borders/extract.ts, assignCountryLookup): for
each geometry index, take the feature id falling back to its name as the
reference, and find the first country whose geometry_ref, country_id or name
matches; unmatched geometries map to none. -/
def matchCountry (countries : List Country) (features : Nat → Feature) (i : Nat) :
    Option Country :=
  let feat := features i
  let ref := feat.id <|> feat.name
  countries.find? fun c =>
    some c.geometry_ref == ref || some c.country_id == ref || some c.name == feat.name

/-- The lookup function assignCountryLookup builds: match every geometry index
inside the geometry list, none outside. -/
def assignCountryLookup (countries : List Country) (features : Nat → Feature) (numGeoms : Nat) :
    Nat → Option Country :=
  fun i => if i < numGeoms then matchCountry countries features i else none

/-- Create one border segment (borders/extract.ts, createSegment): canonicalize
the pair, draw the next per-key index from the counters, build the two-tier
geometry, and pre-assign the formatted segment id. -/
def createSegment (geoDist : Coord → Coord → ℚ) (countryA countryB : String)
    (coords : List Coord) (pairCounters : String → Option Nat) :
    BorderSegment × (String → Option Nat) :=
  let p := canonicalPair countryA countryB
  let idx := (pairCounters p.key).getD 0
  let counters := fun k => if k = p.key then some (idx + 1) else pairCounters k
  let id : BorderSegmentId := { country_a := p.a, country_b := p.b, index := idx }
  let geometry : BorderSegmentGeometry :=
    { coords_hi_res := coords, coords_low_res := some (simplifyLine coords) }
  ({ id := id
     country_a := p.a
     country_b := p.b
     geometry := geometry
     length_km := lineLengthKm geoDist coords
     is_maritime := if p.b = "SEA" then some true else none
     segment_id := some (formatBorderSegmentId id) }, counters)

/-- Extraction state: the segments accumulated so far and the per-pair index
counters (a JS Map modelled as a function to Option Nat). -/
abbrev ExtractState := List BorderSegment × (String → Option Nat)

/-- Append one created segment to the extraction state. -/
def emitSegment (geoDist : Coord → Coord → ℚ) (a b : String) (coords : List Coord)
    (st : ExtractState) : ExtractState :=
  let sc := createSegment geoDist a b coords st.2
  (st.1 ++ [sc.1], sc.2)

/-- Land-border pass for one geometry (borders/extract.ts): for each neighbor
with index not below the current one, when both geometries map to countries,
each shared-mesh line of at least two points becomes a segment. -/
def landStep (geoDist : Coord → Coord → ℚ) (topo : Topology)
    (geomToCountry : Nat → Option Country) (st : ExtractState) (i : Nat) : ExtractState :=
  match geomToCountry i with
  | none => st
  | some countryA =>
    (topo.neighborList i).foldl
      (fun st j =>
        if j < i then st
        else
          match geomToCountry j with
          | none => st
          | some countryB =>
            (geometryLines (topo.sharedMeshResult i j)).foldl
              (fun st coords =>
                if coords.length < 2 then st
                else emitSegment geoDist countryA.country_id countryB.country_id coords st)
              st)
      st

/-- Coastline pass for one geometry (borders/extract.ts): each coastline-mesh
line of at least two points becomes a SEA segment; when the mesh yields no
line at all, fall back to the first ring of each polygon of the geometry. -/
def coastStep (geoDist : Coord → Coord → ℚ) (topo : Topology)
    (geomToCountry : Nat → Option Country) (st : ExtractState) (i : Nat) : ExtractState :=
  match geomToCountry i with
  | none => st
  | some country =>
    let coastLines := geometryLines (topo.coastlineMeshResult i)
    if coastLines.length > 0 then
      coastLines.foldl
        (fun st coords =>
          if coords.length < 2 then st
          else emitSegment geoDist country.country_id ("SEA") coords st)
        st
    else
      (topo.fallbackMultipoly i).foldl
        (fun st poly =>
          match poly with
          | [] => st
          | ring :: _ =>
            if ring.length ≥ 2 then emitSegment geoDist country.country_id ("SEA") ring st
            else st)
        st

/-- Result record of the extractor (borders/extract.ts). -/
structure BorderExtractionResult where
  segments : List BorderSegment
  deriving DecidableEq

/-- Main extraction pipeline over the resolved geometries (borders/extract.ts):
build the geometry-to-country lookup, run the land-border pass over all
geometry pairs, then the coastline pass over all geometries, threading the
segment list and the pair counters. -/
def extractCore (geoDist : Coord → Coord → ℚ) (countries : List Country) (topoHigh : Topology)
    (numGeoms : Nat) : ExtractState :=
  let geomToCountry := assignCountryLookup countries topoHigh.features numGeoms
  let afterLand :=
    (List.range numGeoms).foldl (landStep geoDist topoHigh geomToCountry) ([], fun _ => none)
  (List.range numGeoms).foldl (coastStep geoDist topoHigh geomToCountry) afterLand

/-- Extract all border segments (borders/extract.ts, extractBorderSegments):
resolve the countries object, run the extraction pipeline, and finish every
segment with ensureSegmentKey.  A topology on which the JS code would
dereference undefined (no object at all, or a resolved object without a
geometries array) is an error; the low-detail topology parameter is accepted
but unused, as in the source. -/
def extractBorderSegments (geoDist : Coord → Coord → ℚ) (countries : List Country)
    (topoHigh : Topology) (_topoLow : Option Topology) : Except String BorderExtractionResult :=
  match resolveCountryObject topoHigh with
  | none => .error "TypeError: no topology object could be resolved"
  | some (_, none) => .error "TypeError: resolved topology object has no geometries"
  | some (_, some numGeoms) =>
    .ok { segments := (extractCore geoDist countries topoHigh numGeoms).1.map ensureSegmentKey }

/-- Options record of initializeBorderIndex (borders/api.ts). -/
structure InitializeBorderOptions where
  countries : List Country
  topojsonHigh : Topology
  topojsonLow : Option Topology

/-- initializeBorderIndex (borders/api.ts): run the extractor, build the
index, store it as the new process-wide cache and return it; a thrown
extraction error propagates and leaves the cache unchanged. -/
def initializeBorderIndex (geoDist : Coord → Coord → ℚ) (options : InitializeBorderOptions)
    (cache : Option BorderIndex) : Except String BorderIndex × Option BorderIndex :=
  match extractBorderSegments geoDist options.countries options.topojsonHigh options.topojsonLow with
  | .error e => (.error e, cache)
  | .ok result =>
    let idx := buildIndex result.segments
    (.ok idx, some idx)

/-- Whether one initializeBorderIndex call would succeed. -/
def initSucceeds (geoDist : Coord → Coord → ℚ) (opts : InitializeBorderOptions) : Bool :=
  (extractBorderSegments geoDist opts.countries opts.topojsonHigh opts.topojsonLow).toOption.isSome

/-- Process lifetime of the cache: starting uninitialized, perform a sequence
of initializeBorderIndex calls and return the final cache. -/
def runInits (geoDist : Coord → Coord → ℚ) (inits : List InitializeBorderOptions) :
    Option BorderIndex :=
  inits.foldl (fun cache opts => (initializeBorderIndex geoDist opts cache).2) none

/-! Concrete inputs used as witnesses and counterexamples. -/

/-- Oracle distance that reports zero for every pair of coordinates. -/
def zeroDist : Coord → Coord → ℚ := fun _ _ => 0

/-- Two demo countries sharing one border arc. -/
def demoCountries : List Country :=
  [ { country_id := "AAA", name := "Aland", geometry_ref := "AAA" },
    { country_id := "BBB", name := "Borduria", geometry_ref := "BBB" } ]

/-- Demo topology: two adjacent geometries, one shared arc, one coastline arc
each. -/
def demoTopology : Topology :=
  { objects := [("countries", some 2)]
    features := fun i =>
      if i = 0 then { id := some "AAA", name := some "Aland" }
      else if i = 1 then { id := some "BBB", name := some "Borduria" }
      else { id := none, name := none }
    neighborList := fun i => if i = 0 then [1] else if i = 1 then [0] else []
    sharedMeshResult := fun i j =>
      if i = 0 ∧ j = 1 then some (.lineString [(0, 0), (1, 0)]) else none
    coastlineMeshResult := fun i =>
      if i = 0 then some (.lineString [(0, 0), (0, 1)])
      else if i = 1 then some (.lineString [(1, 0), (1, 1)])
      else none
    fallbackMultipoly := fun _ => [] }

/-- Demo initialization options. -/
def demoOptions : InitializeBorderOptions :=
  { countries := demoCountries, topojsonHigh := demoTopology, topojsonLow := none }

/-- The demo extraction result. -/
def demoResult : BorderExtractionResult :=
  (extractBorderSegments zeroDist demoCountries demoTopology none).toOption.getD { segments := [] }

/-- Topology with an empty object map; extraction fails on it. -/
def emptyTopology : Topology :=
  { objects := []
    features := fun _ => { id := none, name := none }
    neighborList := fun _ => []
    sharedMeshResult := fun _ _ => none
    coastlineMeshResult := fun _ => none
    fallbackMultipoly := fun _ => [] }

/-- Initialization options that fail. -/
def failOptions : InitializeBorderOptions :=
  { countries := [], topojsonHigh := emptyTopology, topojsonLow := none }

/-- Canonical pair key of a segment, read off its id fields; for every segment
the extractor creates this coincides with the key its counters use. -/
def pairKeyOf (s : BorderSegment) : String := s.id.country_a ++ "-" ++ s.id.country_b

/-- Well-formedness of a country pair handed to createSegment: the first
country is not the reserved SEA marker, and the second is either the SEA
marker or a different country that is not SEA either. -/
def ReqOK (a b : String) : Prop :=
  a ≠ "SEA" ∧ (b = "SEA" ∨ (a ≠ b ∧ b ≠ "SEA"))

/-- Canonical-ordering property of one segment: its two countries differ, and
a non-maritime segment is strictly sorted with id fields matching. -/
def SegCanonical (s : BorderSegment) : Prop :=
  s.country_a ≠ s.country_b ∧
    (s.country_b ≠ "SEA" →
      jsStringLt s.country_a s.country_b = true ∧
        s.id.country_a = s.country_a ∧ s.id.country_b = s.country_b)

/-- Counter coherence of an extraction state: for every pair key, the indices
of the segments carrying that key, in emission order, are exactly 0, 1, ... up
to the current counter value. -/
def ContigState (st : ExtractState) : Prop :=
  ∀ key : String,
    ((st.1.filter fun s => pairKeyOf s = key).map fun s => s.id.index) =
      List.range ((st.2 key).getD 0)

/-- Distinctness of the formatted ids of an extraction state. -/
def NodupFormats (st : ExtractState) : Prop :=
  (st.1.map fun s => formatBorderSegmentId s.id).Nodup

/-- Invariant carried through the whole extraction. -/
def EmitInv (st : ExtractState) : Prop := ContigState st ∧ NodupFormats st

/-- A default segment used only to name elements of concrete lists. -/
def dummySegment : BorderSegment :=
  { id := { country_a := "", country_b := "", index := 0 }
    country_a := ""
    country_b := ""
    geometry := { coords_hi_res := [], coords_low_res := none }
    length_km := 0
    is_maritime := none
    segment_id := none }

/-- A hand-made segment whose pair is stored in non-canonical order. -/
def segBA : BorderSegment :=
  { id := { country_a := "B", country_b := "A", index := 0 }
    country_a := "B"
    country_b := "A"
    geometry := { coords_hi_res := [(0, 0), (1, 1)], coords_low_res := none }
    length_km := 0
    is_maritime := none
    segment_id := none }

/-- A segment with a present, non-empty low resolution geometry. -/
def sampleLowSeg : BorderSegment :=
  { id := { country_a := "AAA", country_b := "BBB", index := 0 }
    country_a := "AAA"
    country_b := "BBB"
    geometry := { coords_hi_res := [(0, 0), (1, 1), (2, 2)], coords_low_res := some [(0, 0), (2, 2)] }
    length_km := 0
    is_maritime := none
    segment_id := none }

/-- The land segment the demo topology produces first. -/
def demoLandSegment : BorderSegment := demoResult.segments.headD dummySegment

/-- The index built over the demo segments. -/
def demoIdx : BorderIndex := buildIndex demoResult.segments

/-- One country record matched, by name, by two distinct geometries. -/
def dupCountries : List Country :=
  [ { country_id := "ALA", name := "Aland", geometry_ref := "ALA" } ]

/-- Topology whose two adjacent geometries both match the same country. -/
def dupTopology : Topology :=
  { objects := [("countries", some 2)]
    features := fun _ => { id := none, name := some "Aland" }
    neighborList := fun i => if i = 0 then [1] else if i = 1 then [0] else []
    sharedMeshResult := fun i j =>
      if i = 0 ∧ j = 1 then some (.lineString [(0, 0), (1, 0)]) else none
    coastlineMeshResult := fun _ => none
    fallbackMultipoly := fun _ => [] }

/-- The extraction result of the duplicate-match topology. -/
def dupResult : BorderExtractionResult :=
  (extractBorderSegments zeroDist dupCountries dupTopology none).toOption.getD { segments := [] }

/-- The single segment the duplicate-match topology produces. -/
def dupSegment : BorderSegment := dupResult.segments.headD dummySegment

/-- Countries one of which is literally named SEA. -/
def seaCountries : List Country :=
  [ { country_id := "SEA", name := "Sealand", geometry_ref := "SEA" },
    { country_id := "ZZZ", name := "Zedland", geometry_ref := "ZZZ" } ]

/-- Topology adjoining the country named SEA to another country. -/
def seaTopology : Topology :=
  { objects := [("countries", some 2)]
    features := fun i =>
      if i = 0 then { id := some "SEA", name := some "Sealand" }
      else if i = 1 then { id := some "ZZZ", name := some "Zedland" }
      else { id := none, name := none }
    neighborList := fun i => if i = 0 then [1] else if i = 1 then [0] else []
    sharedMeshResult := fun i j =>
      if i = 0 ∧ j = 1 then some (.lineString [(0, 0), (1, 0)]) else none
    coastlineMeshResult := fun _ => none
    fallbackMultipoly := fun _ => [] }

/-- Initialization options for the SEA-named-country topology. -/
def seaOptions : InitializeBorderOptions :=
  { countries := seaCountries, topojsonHigh := seaTopology, topojsonLow := none }

/-- Cache produced by initializing on the SEA-named-country topology. -/
def seaCache : Option BorderIndex := (initializeBorderIndex zeroDist seaOptions none).2

/-- Topology with one object whose key is not country-like. -/
def noCountryTopology : Topology :=
  { objects := [("land", some 0)]
    features := fun _ => { id := none, name := none }
    neighborList := fun _ => []
    sharedMeshResult := fun _ _ => none
    coastlineMeshResult := fun _ => none
    fallbackMultipoly := fun _ => [] }

/-- Initialization options for the topology without a country-like key. -/
def noCountryOptions : InitializeBorderOptions :=
  { countries := [], topojsonHigh := noCountryTopology, topojsonLow := none }

/-! General helper lemmas. -/

theorem headD_mem {α : Type _} (l : List α) (d : α) (h : l ≠ []) : l.headD d ∈ l := by
  cases l with
  | nil => exact absurd rfl h
  | cons a t => exact List.mem_cons_self a t

theorem foldl_preserve {α β : Type _} (Inv : α → Prop) (f : α → β → α) (l : List β)
    (hf : ∀ a b, b ∈ l → Inv a → Inv (f a b)) :
    ∀ a, Inv a → Inv (l.foldl f a) := by
  induction l with
  | nil => intro a ha; exact ha
  | cons x xs ih =>
    intro a ha
    exact ih (fun a b hb => hf a b (List.mem_cons_of_mem x hb)) (f a x)
      (hf a x (List.mem_cons_self x xs) ha)

/-! Lemmas about the JS string comparator. -/

theorem lexLt_asymm : ∀ l1 l2 : List Char, lexLt l1 l2 = true → lexLt l2 l1 = false := by
  intro l1
  induction l1 with
  | nil => intro l2 h; cases l2 <;> simp_all [lexLt]
  | cons a as ih =>
    intro l2 h
    cases l2 with
    | nil => simp_all [lexLt]
    | cons b bs =>
      simp only [lexLt] at h ⊢
      rcases lt_trichotomy a b with hab | hab | hab
      · simp [hab, asymm hab, not_lt_of_lt hab]
      · subst hab; simp_all [lt_irrefl]
      · simp_all [asymm hab, not_lt_of_lt hab]

theorem lexLt_eq_of_not : ∀ l1 l2 : List Char, lexLt l1 l2 = false → lexLt l2 l1 = false →
    l1 = l2 := by
  intro l1
  induction l1 with
  | nil => intro l2 h1 h2; cases l2 <;> simp_all [lexLt]
  | cons a as ih =>
    intro l2 h1 h2
    cases l2 with
    | nil => simp_all [lexLt]
    | cons b bs =>
      simp only [lexLt] at h1 h2
      rcases lt_trichotomy a b with hab | hab | hab
      · simp [hab] at h1
      · subst hab
        simp only [lt_irrefl, if_false] at h1 h2
        rw [ih bs h1 h2]
      · simp [hab, asymm hab] at h2

theorem jsStringLe_of_not (a b : String) (h : jsStringLe a b = false) : jsStringLe b a = true := by
  unfold jsStringLe jsStringLt at h ⊢
  rcases hba : lexLt b.data a.data with hf | ht
  · rw [hba] at h; simp at h
  · simp [lexLt_asymm _ _ hba]

theorem jsStringLe_antisymm (a b : String) (h1 : jsStringLe a b = true)
    (h2 : jsStringLe b a = true) : a = b := by
  unfold jsStringLe jsStringLt at h1 h2
  simp only [Bool.not_eq_true'] at h1 h2
  exact String.ext (lexLt_eq_of_not a.data b.data h2 h1)

theorem jsStringLt_of_le_ne (a b : String) (h : jsStringLe a b = true) (hne : a ≠ b) :
    jsStringLt a b = true := by
  unfold jsStringLe jsStringLt at h
  unfold jsStringLt
  simp only [Bool.not_eq_true'] at h
  rcases hab : lexLt a.data b.data with hf | ht
  · exact absurd (String.ext (lexLt_eq_of_not a.data b.data hab h)) hne
  · rfl

/-! Lemmas about the canonicalizer. -/

theorem canonicalPair_key (a b : String) :
    (canonicalPair a b).key = (canonicalPair a b).a ++ "-" ++ (canonicalPair a b).b := by
  unfold canonicalPair
  split
  · show a ++ "-SEA" = a ++ "-" ++ "SEA"
    apply String.ext
    simp [String.data_append]
  · rfl

theorem canonicalPair_comm (a b : String) (ha : a ≠ "SEA") (hb : b ≠ "SEA") :
    canonicalPair a b = canonicalPair b a := by
  unfold canonicalPair
  rw [if_neg hb, if_neg ha]
  rcases hab : jsStringLe a b with h | h
  · have := jsStringLe_of_not a b hab
    simp [hab, this]
  · rcases hba : jsStringLe b a with h2 | h2
    · simp [hab, hba]
    · have := jsStringLe_antisymm a b hab hba
      subst this
      simp

/-! Membership characterization of the buildIndex maps. -/

theorem mem_mapPush (m : String → List BorderSegment) (key : String) (seg s : BorderSegment)
    (k : String) : s ∈ mapPush m key seg k ↔ s ∈ m k ∨ (k = key ∧ s = seg) := by
  unfold mapPush
  split
  · rename_i h
    simp [h]
  · rename_i h
    simp [h]

theorem mem_buildStep_fst (acc : (String → List BorderSegment) × (String → List BorderSegment))
    (seg s : BorderSegment) (X : String) :
    s ∈ (buildStep acc seg).1 X ↔
      s ∈ acc.1 X ∨ (s = seg ∧ (seg.country_a = X ∨ (seg.country_b ≠ "SEA" ∧ seg.country_b = X))) := by
  unfold buildStep
  by_cases hsea : seg.country_b = "SEA"
  · simp only [hsea, ne_eq, not_true_eq_false, if_false, mem_mapPush]
    tauto
  · simp only [hsea, ne_eq, not_false_eq_true, if_true, mem_mapPush]
    tauto

theorem mem_buildStep_snd (acc : (String → List BorderSegment) × (String → List BorderSegment))
    (seg s : BorderSegment) (k : String) :
    s ∈ (buildStep acc seg).2 k ↔
      s ∈ acc.2 k ∨ (s = seg ∧ seg.country_a ++ "-" ++ seg.country_b = k) := by
  unfold buildStep
  simp only [mem_mapPush]
  tauto

theorem mem_foldl_buildStep_fst (segs : List BorderSegment) :
    ∀ (acc : (String → List BorderSegment) × (String → List BorderSegment)) (X : String)
      (s : BorderSegment),
      s ∈ (segs.foldl buildStep acc).1 X ↔
        s ∈ acc.1 X ∨ (s ∈ segs ∧ (s.country_a = X ∨ (s.country_b ≠ "SEA" ∧ s.country_b = X))) := by
  induction segs with
  | nil => intro acc X s; simp
  | cons hd tl ih =>
    intro acc X s
    rw [List.foldl_cons, ih, mem_buildStep_fst]
    constructor
    · rintro ((h | ⟨hs, hp⟩) | ⟨hmem, hp⟩)
      · exact Or.inl h
      · subst hs; exact Or.inr ⟨List.mem_cons_self _ _, hp⟩
      · exact Or.inr ⟨List.mem_cons_of_mem hd hmem, hp⟩
    · rintro (h | ⟨hmem, hp⟩)
      · exact Or.inl (Or.inl h)
      · rcases List.mem_cons.mp hmem with hs | hmem2
        · exact Or.inl (Or.inr ⟨hs, hs ▸ hp⟩)
        · exact Or.inr ⟨hmem2, hp⟩

theorem mem_foldl_buildStep_snd (segs : List BorderSegment) :
    ∀ (acc : (String → List BorderSegment) × (String → List BorderSegment)) (k : String)
      (s : BorderSegment),
      s ∈ (segs.foldl buildStep acc).2 k ↔
        s ∈ acc.2 k ∨ (s ∈ segs ∧ s.country_a ++ "-" ++ s.country_b = k) := by
  induction segs with
  | nil => intro acc k s; simp
  | cons hd tl ih =>
    intro acc k s
    rw [List.foldl_cons, ih, mem_buildStep_snd]
    constructor
    · rintro ((h | ⟨hs, hp⟩) | ⟨hmem, hp⟩)
      · exact Or.inl h
      · subst hs; exact Or.inr ⟨List.mem_cons_self _ _, hp⟩
      · exact Or.inr ⟨List.mem_cons_of_mem hd hmem, hp⟩
    · rintro (h | ⟨hmem, hp⟩)
      · exact Or.inl (Or.inl h)
      · rcases List.mem_cons.mp hmem with hs | hmem2
        · exact Or.inl (Or.inr ⟨hs, hs ▸ hp⟩)
        · exact Or.inr ⟨hmem2, hp⟩

theorem mem_buildIndex_byCountry (segs : List BorderSegment) (X : String) (s : BorderSegment) :
    s ∈ (buildIndex segs).byCountry X ↔
      s ∈ segs ∧ (s.country_a = X ∨ (s.country_b ≠ "SEA" ∧ s.country_b = X)) := by
  show s ∈ (segs.foldl buildStep (fun _ => [], fun _ => [])).1 X ↔ _
  rw [mem_foldl_buildStep_fst]
  simp

theorem mem_buildIndex_byPair (segs : List BorderSegment) (k : String) (s : BorderSegment) :
    s ∈ (buildIndex segs).byPair k ↔
      s ∈ segs ∧ s.country_a ++ "-" ++ s.country_b = k := by
  show s ∈ (segs.foldl buildStep (fun _ => [], fun _ => [])).2 k ↔ _
  rw [mem_foldl_buildStep_snd]
  simp

theorem buildIndex_segments (segs : List BorderSegment) : (buildIndex segs).segments = segs := rfl

/-! Injectivity of the formatted segment id: the decimal index part contains
no dash, so the formatted string determines the pair key and the index. -/

theorem digitChar_ne_dash : ∀ m : Nat, m < 10 → Nat.digitChar m ≠ '-' := by decide

theorem digitChar_injOn : ∀ a : Nat, a < 10 → ∀ b : Nat, b < 10 →
    Nat.digitChar a = Nat.digitChar b → a = b := by decide

theorem toDigitsCore_eq (fuel n : Nat) (ds : List Char) :
    Nat.toDigitsCore 10 (fuel + 1) n ds =
      if n / 10 = 0 then Nat.digitChar (n % 10) :: ds
      else Nat.toDigitsCore 10 fuel (n / 10) (Nat.digitChar (n % 10) :: ds) := rfl

theorem toDigitsCore_eq_digits : ∀ n : Nat, 0 < n → ∀ fuel, n < fuel → ∀ ds : List Char,
    Nat.toDigitsCore 10 fuel n ds = ((Nat.digits 10 n).map Nat.digitChar).reverse ++ ds := by
  intro n
  induction n using Nat.strong_induction_on with
  | _ n ih =>
    intro hn fuel hfuel ds
    match fuel, hfuel with
    | fuel + 1, _ =>
      rw [toDigitsCore_eq]
      by_cases h0 : n / 10 = 0
      · rw [if_pos h0]
        have hdig : Nat.digits 10 n = [n % 10] := by
          rw [Nat.digits_def' (by norm_num) hn, h0]
          simp
        rw [hdig]
        simp
      · rw [if_neg h0]
        have hpos : 0 < n / 10 := Nat.pos_of_ne_zero h0
        have hlt : n / 10 < n := Nat.div_lt_self hn (by norm_num)
        rw [ih (n / 10) hlt hpos fuel (by omega) (Nat.digitChar (n % 10) :: ds)]
        rw [Nat.digits_def' (by norm_num) hn]
        simp

theorem repr_data_of_pos (n : Nat) (hn : 0 < n) :
    (Nat.repr n).data = ((Nat.digits 10 n).map Nat.digitChar).reverse := by
  show (Nat.toDigits 10 n).asString.data = _
  rw [Nat.toDigits, toDigitsCore_eq_digits n hn (n + 1) (by omega) []]
  simp [List.asString]

theorem repr_no_dash (n : Nat) : '-' ∉ (Nat.repr n).data := by
  rcases Nat.eq_zero_or_pos n with h | h
  · subst h; decide
  · rw [repr_data_of_pos n h]
    intro hmem
    simp only [List.mem_reverse, List.mem_map] at hmem
    obtain ⟨d, hd, hdc⟩ := hmem
    exact digitChar_ne_dash d (Nat.digits_lt_base (by norm_num) hd) hdc

theorem map_digitChar_inj : ∀ l1 l2 : List Nat, (∀ d ∈ l1, d < 10) → (∀ d ∈ l2, d < 10) →
    l1.map Nat.digitChar = l2.map Nat.digitChar → l1 = l2 := by
  intro l1
  induction l1 with
  | nil => intro l2 _ _ h; cases l2 <;> simp_all
  | cons a as ih =>
    intro l2 h1 h2 h
    cases l2 with
    | nil => simp at h
    | cons b bs =>
      simp only [List.map_cons, List.cons.injEq] at h
      have ha : a < 10 := h1 a (List.mem_cons_self a as)
      have hb : b < 10 := h2 b (List.mem_cons_self b bs)
      have hab := digitChar_injOn a ha b hb h.1
      have htl := ih bs (fun d hd => h1 d (List.mem_cons_of_mem a hd))
        (fun d hd => h2 d (List.mem_cons_of_mem b hd)) h.2
      rw [hab, htl]

theorem repr_pos_ne_zero_str (n : Nat) (hn : 0 < n) : (Nat.repr n).data ≠ ['0'] := by
  rw [repr_data_of_pos n hn]
  intro h
  have hlen : ((Nat.digits 10 n).map Nat.digitChar).reverse.length = 1 := by rw [h]; rfl
  simp only [List.length_reverse, List.length_map] at hlen
  obtain ⟨d, hd⟩ := List.length_eq_one.mp hlen
  rw [hd] at h
  simp only [List.map_cons, List.map_nil, List.reverse_cons, List.reverse_nil,
    List.nil_append, List.cons.injEq] at h
  have hdlt : d < 10 := Nat.digits_lt_base (by norm_num) (by rw [hd]; exact List.mem_cons_self d [])
  have hd0 : d = 0 := digitChar_injOn d hdlt 0 (by norm_num) (by simpa using h.1)
  have hofd := congrArg (Nat.ofDigits 10) hd
  rw [Nat.ofDigits_digits] at hofd
  simp [Nat.ofDigits, hd0] at hofd
  omega

theorem repr_injective (m n : Nat) (h : Nat.repr m = Nat.repr n) : m = n := by
  have hd : (Nat.repr m).data = (Nat.repr n).data := by rw [h]
  rcases Nat.eq_zero_or_pos m with hm | hm <;> rcases Nat.eq_zero_or_pos n with hn | hn
  · rw [hm, hn]
  · exfalso
    subst hm
    exact repr_pos_ne_zero_str n hn hd.symm
  · exfalso
    subst hn
    exact repr_pos_ne_zero_str m hm hd
  · rw [repr_data_of_pos m hm, repr_data_of_pos n hn] at hd
    have hrev := List.reverse_injective hd
    have hdig := map_digitChar_inj (Nat.digits 10 m) (Nat.digits 10 n)
      (fun d hdm => Nat.digits_lt_base (by norm_num) hdm)
      (fun d hdn => Nat.digits_lt_base (by norm_num) hdn) hrev
    have := congrArg (Nat.ofDigits 10) hdig
    rwa [Nat.ofDigits_digits, Nat.ofDigits_digits] at this

theorem dashfree_append_inj : ∀ d1 d2 k1 k2 : List Char, '-' ∉ d1 → '-' ∉ d2 →
    d1 ++ '-' :: k1 = d2 ++ '-' :: k2 → d1 = d2 ∧ k1 = k2 := by
  intro d1
  induction d1 with
  | nil =>
    intro d2 k1 k2 _ h2 heq
    cases d2 with
    | nil => simp_all
    | cons c cs =>
      exfalso
      simp only [List.nil_append, List.cons_append, List.cons.injEq] at heq
      exact h2 (heq.1 ▸ List.mem_cons_self c cs)
  | cons a as ih =>
    intro d2 k1 k2 h1 h2 heq
    cases d2 with
    | nil =>
      exfalso
      simp only [List.nil_append, List.cons_append, List.cons.injEq] at heq
      exact h1 (heq.1.symm ▸ List.mem_cons_self a as)
    | cons c cs =>
      simp only [List.cons_append, List.cons.injEq] at heq
      have hrec := ih cs k1 k2 (fun hm => h1 (List.mem_cons_of_mem a hm))
        (fun hm => h2 (List.mem_cons_of_mem c hm)) heq.2
      exact ⟨by rw [heq.1, hrec.1], hrec.2⟩

theorem last_dash_split (k1 k2 r1 r2 : List Char) (h1 : '-' ∉ r1) (h2 : '-' ∉ r2)
    (heq : k1 ++ '-' :: r1 = k2 ++ '-' :: r2) : k1 = k2 ∧ r1 = r2 := by
  have hrev : r1.reverse ++ '-' :: k1.reverse = r2.reverse ++ '-' :: k2.reverse := by
    have := congrArg List.reverse heq
    simpa [List.reverse_append] using this
  have hd := dashfree_append_inj r1.reverse r2.reverse k1.reverse k2.reverse
    (by simpa using h1) (by simpa using h2) hrev
  constructor
  · have := congrArg List.reverse hd.2
    simpa using this
  · have := congrArg List.reverse hd.1
    simpa using this

theorem key_repr_inj (k1 k2 : String) (n1 n2 : Nat)
    (h : k1 ++ "-" ++ Nat.repr n1 = k2 ++ "-" ++ Nat.repr n2) : k1 = k2 ∧ n1 = n2 := by
  have hdata := congrArg String.data h
  simp only [String.data_append] at hdata
  have hdata2 : k1.data ++ '-' :: (Nat.repr n1).data = k2.data ++ '-' :: (Nat.repr n2).data := by
    simpa using hdata
  have hs := last_dash_split k1.data k2.data (Nat.repr n1).data (Nat.repr n2).data
    (repr_no_dash n1) (repr_no_dash n2) hdata2
  exact ⟨String.ext hs.1, repr_injective n1 n2 (String.ext hs.2)⟩

theorem formatBorderSegmentId_eq_key (id : BorderSegmentId) :
    formatBorderSegmentId id = (id.country_a ++ "-" ++ id.country_b) ++ "-" ++ Nat.repr id.index :=
  rfl

theorem formatBorderSegmentId_inj (id1 id2 : BorderSegmentId)
    (h : formatBorderSegmentId id1 = formatBorderSegmentId id2) :
    id1.country_a ++ "-" ++ id1.country_b = id2.country_a ++ "-" ++ id2.country_b ∧
      id1.index = id2.index := by
  rw [formatBorderSegmentId_eq_key, formatBorderSegmentId_eq_key] at h
  exact key_repr_inj _ _ _ _ h

/-! Lemmas about createSegment and the extraction invariants. -/

theorem createSegment_fst_country_a (gD : Coord → Coord → ℚ) (a b : String) (coords : List Coord)
    (cnt : String → Option Nat) :
    (createSegment gD a b coords cnt).1.country_a = (canonicalPair a b).a := rfl

theorem createSegment_fst_country_b (gD : Coord → Coord → ℚ) (a b : String) (coords : List Coord)
    (cnt : String → Option Nat) :
    (createSegment gD a b coords cnt).1.country_b = (canonicalPair a b).b := rfl

theorem createSegment_fst_id (gD : Coord → Coord → ℚ) (a b : String) (coords : List Coord)
    (cnt : String → Option Nat) :
    (createSegment gD a b coords cnt).1.id =
      { country_a := (canonicalPair a b).a, country_b := (canonicalPair a b).b,
        index := (cnt (canonicalPair a b).key).getD 0 } := rfl

theorem createSegment_index (gD : Coord → Coord → ℚ) (a b : String) (coords : List Coord)
    (cnt : String → Option Nat) :
    (createSegment gD a b coords cnt).1.id.index = (cnt (canonicalPair a b).key).getD 0 := rfl

theorem createSegment_snd (gD : Coord → Coord → ℚ) (a b : String) (coords : List Coord)
    (cnt : String → Option Nat) :
    (createSegment gD a b coords cnt).2 =
      fun k => if k = (canonicalPair a b).key then some ((cnt (canonicalPair a b).key).getD 0 + 1)
               else cnt k := rfl

theorem createSegment_pairKeyOf (gD : Coord → Coord → ℚ) (a b : String) (coords : List Coord)
    (cnt : String → Option Nat) :
    pairKeyOf (createSegment gD a b coords cnt).1 = (canonicalPair a b).key := by
  show (canonicalPair a b).a ++ "-" ++ (canonicalPair a b).b = (canonicalPair a b).key
  exact (canonicalPair_key a b).symm

theorem emitSegment_eq (gD : Coord → Coord → ℚ) (a b : String) (coords : List Coord)
    (st : ExtractState) :
    emitSegment gD a b coords st =
      (st.1 ++ [(createSegment gD a b coords st.2).1], (createSegment gD a b coords st.2).2) := rfl

theorem ContigState_index_lt (st : ExtractState) (h : ContigState st) (s : BorderSegment)
    (hs : s ∈ st.1) : s.id.index < (st.2 (pairKeyOf s)).getD 0 := by
  have hmem : s ∈ st.1.filter (fun s2 => pairKeyOf s2 = pairKeyOf s) :=
    List.mem_filter.mpr ⟨hs, by simp⟩
  have hmap : s.id.index ∈ (st.1.filter fun s2 => pairKeyOf s2 = pairKeyOf s).map
      fun s2 => s2.id.index := List.mem_map_of_mem _ hmem
  rw [h (pairKeyOf s)] at hmap
  exact List.mem_range.mp hmap

theorem emitSegment_EmitInv (gD : Coord → Coord → ℚ) (a b : String) (coords : List Coord)
    (st : ExtractState) (h : EmitInv st) : EmitInv (emitSegment gD a b coords st) := by
  obtain ⟨hc, hn⟩ := h
  constructor
  · intro key
    rw [emitSegment_eq]
    show ((st.1 ++ [(createSegment gD a b coords st.2).1]).filter _).map _ = _
    rw [List.filter_append, List.map_append, createSegment_snd]
    dsimp only
    by_cases hk : key = (canonicalPair a b).key
    · subst hk
      rw [if_pos rfl]
      have hseg : (List.filter (fun s => decide (pairKeyOf s = (canonicalPair a b).key))
          [(createSegment gD a b coords st.2).1]) = [(createSegment gD a b coords st.2).1] := by
        simp [createSegment_pairKeyOf]
      rw [hseg]
      simp only [List.map_cons, List.map_nil]
      rw [hc ((canonicalPair a b).key), createSegment_index]
      simp [List.range_succ]
    · rw [if_neg hk]
      have hseg : (List.filter (fun s => decide (pairKeyOf s = key))
          [(createSegment gD a b coords st.2).1]) = [] := by
        simp [createSegment_pairKeyOf]
        exact fun hkk => hk hkk.symm
      rw [hseg]
      simp [hc key]
  · rw [emitSegment_eq]
    show ((st.1 ++ [(createSegment gD a b coords st.2).1]).map _).Nodup
    rw [List.map_append, List.nodup_append]
    refine ⟨hn, by simp, ?_⟩
    intro x hx hx2
    simp only [List.map_cons, List.map_nil, List.mem_singleton] at hx2
    subst hx2
    simp only [List.mem_map] at hx
    obtain ⟨s, hs, hfmt⟩ := hx
    have hinj := formatBorderSegmentId_inj _ _ hfmt
    have hkey : pairKeyOf s = pairKeyOf (createSegment gD a b coords st.2).1 := hinj.1
    have hidx : s.id.index = (createSegment gD a b coords st.2).1.id.index := hinj.2
    have hlt := ContigState_index_lt st hc s hs
    rw [hkey, createSegment_pairKeyOf, createSegment_index] at *
    omega

theorem landStep_pres (gD : Coord → Coord → ℚ) (topo : Topology)
    (gtc : Nat → Option Country) (Inv : ExtractState → Prop) (i : Nat)
    (hemit : ∀ j cA cB, j ∈ topo.neighborList i → ¬ j < i → gtc i = some cA → gtc j = some cB →
      ∀ coords st, Inv st → Inv (emitSegment gD cA.country_id cB.country_id coords st))
    (st : ExtractState) (h : Inv st) : Inv (landStep gD topo gtc st i) := by
  unfold landStep
  cases hgi : gtc i with
  | none => exact h
  | some cA =>
    refine foldl_preserve Inv _ _ ?_ st h
    intro st1 j hj h1
    by_cases hlt : j < i
    · rw [if_pos hlt]; exact h1
    · rw [if_neg hlt]
      cases hgj : gtc j with
      | none => exact h1
      | some cB =>
        refine foldl_preserve Inv _ _ ?_ st1 h1
        intro st2 coords _ h2
        by_cases hlen : coords.length < 2
        · rw [if_pos hlen]; exact h2
        · rw [if_neg hlen]
          exact hemit j cA cB hj hlt hgi hgj coords st2 h2

theorem coastStep_pres (gD : Coord → Coord → ℚ) (topo : Topology)
    (gtc : Nat → Option Country) (Inv : ExtractState → Prop) (i : Nat)
    (hemit : ∀ c, gtc i = some c →
      ∀ coords st, Inv st → Inv (emitSegment gD c.country_id ("SEA") coords st))
    (st : ExtractState) (h : Inv st) : Inv (coastStep gD topo gtc st i) := by
  unfold coastStep
  cases hgi : gtc i with
  | none => exact h
  | some c =>
    dsimp only
    by_cases hcl : (geometryLines (topo.coastlineMeshResult i)).length > 0
    · rw [if_pos hcl]
      refine foldl_preserve Inv _ _ ?_ st h
      intro st1 coords _ h1
      by_cases hlen : coords.length < 2
      · rw [if_pos hlen]; exact h1
      · rw [if_neg hlen]
        exact hemit c hgi coords st1 h1
    · rw [if_neg hcl]
      refine foldl_preserve Inv _ _ ?_ st h
      intro st1 poly _ h1
      cases poly with
      | nil => exact h1
      | cons ring rest =>
        dsimp only
        by_cases hlen : ring.length ≥ 2
        · rw [if_pos hlen]
          exact hemit c hgi ring st1 h1
        · rw [if_neg hlen]; exact h1

theorem extractCore_inv (gD : Coord → Coord → ℚ) (countries : List Country) (topoHigh : Topology)
    (numGeoms : Nat) (Inv : ExtractState → Prop) (h0 : Inv ([], fun _ => none))
    (hland : ∀ st i, Inv st →
      Inv (landStep gD topoHigh (assignCountryLookup countries topoHigh.features numGeoms) st i))
    (hcoast : ∀ st i, Inv st →
      Inv (coastStep gD topoHigh (assignCountryLookup countries topoHigh.features numGeoms) st i)) :
    Inv (extractCore gD countries topoHigh numGeoms) := by
  unfold extractCore
  exact foldl_preserve Inv _ _ (fun st i _ h => hcoast st i h) _
    (foldl_preserve Inv _ _ (fun st i _ h => hland st i h) _ h0)

theorem extract_ok_elim (gD : Coord → Coord → ℚ) (countries : List Country) (topoHigh : Topology)
    (topoLow : Option Topology) (r : BorderExtractionResult)
    (h : extractBorderSegments gD countries topoHigh topoLow = .ok r) :
    ∃ numGeoms, (∃ key, resolveCountryObject topoHigh = some (key, some numGeoms)) ∧
      r.segments = (extractCore gD countries topoHigh numGeoms).1.map ensureSegmentKey := by
  unfold extractBorderSegments at h
  cases hres : resolveCountryObject topoHigh with
  | none => rw [hres] at h; cases h
  | some kv =>
    obtain ⟨key, g⟩ := kv
    cases g with
    | none => rw [hres] at h; cases h
    | some n =>
      rw [hres] at h
      simp only [Except.ok.injEq] at h
      exact ⟨n, ⟨key, rfl⟩, by rw [← h]⟩

theorem ensureSegmentKey_id (s : BorderSegment) : (ensureSegmentKey s).id = s.id := by
  rcases hseg : s.segment_id with _ | v
  · simp [ensureSegmentKey, hseg]
  · simp only [ensureSegmentKey, hseg]
    split <;> rfl

theorem ensureSegmentKey_country_a (s : BorderSegment) :
    (ensureSegmentKey s).country_a = s.country_a := by
  rcases hseg : s.segment_id with _ | v
  · simp [ensureSegmentKey, hseg]
  · simp only [ensureSegmentKey, hseg]
    split <;> rfl

theorem ensureSegmentKey_country_b (s : BorderSegment) :
    (ensureSegmentKey s).country_b = s.country_b := by
  rcases hseg : s.segment_id with _ | v
  · simp [ensureSegmentKey, hseg]
  · simp only [ensureSegmentKey, hseg]
    split <;> rfl

/-! Reduction and monotonicity lemmas for the simplifier loop. -/

theorem dpLoop_cons_push (coords : List Coord) (sqTol : ℚ) (s e : Nat) (rest : List (Nat × Nat))
    (keep : Nat → Bool) (i : Nat) (hidx : (farthestPoint coords s e).idx = some i)
    (hcond : (farthestPoint coords s e).maxSqDist > sqTol) :
    dpLoop coords sqTol ((s, e) :: rest) keep =
      dpLoop coords sqTol ((i, e) :: (s, i) :: rest) (fun k => if k = i then true else keep k) := by
  rw [dpLoop]
  simp only [if_pos hcond]
  split
  · rename_i i2 h1
    rw [h1] at hidx
    injection hidx with h2
    subst h2
    rfl
  · rename_i h1
    rw [h1] at hidx
    cases hidx

theorem dpLoop_cons_pop (coords : List Coord) (sqTol : ℚ) (s e : Nat) (rest : List (Nat × Nat))
    (keep : Nat → Bool)
    (h : ∀ i, (farthestPoint coords s e).idx = some i →
      ¬(farthestPoint coords s e).maxSqDist > sqTol) :
    dpLoop coords sqTol ((s, e) :: rest) keep = dpLoop coords sqTol rest keep := by
  rw [dpLoop]
  split
  · rename_i i2 h1
    rw [if_neg (h i2 h1)]
  · rfl

theorem dpLoop_mono (coords : List Coord) (sqTol : ℚ) :
    ∀ (stack : List (Nat × Nat)) (keep : Nat → Bool),
      ∀ i, keep i = true → dpLoop coords sqTol stack keep i = true := by
  intro stack keep
  induction stack, keep using dpLoop.induct coords sqTol with
  | case1 keep =>
    intro i h
    rw [dpLoop]
    exact h
  | case2 keep s e rest far j hidx hcond ih =>
    intro i h
    rw [dpLoop_cons_push coords sqTol s e rest keep j hidx hcond]
    apply ih
    by_cases hii : i = j
    · simp [hii]
    · simp [hii, h]
  | case3 keep s e rest far j hidx hcond ih =>
    intro i h
    rw [dpLoop_cons_pop coords sqTol s e rest keep (fun _ _ => hcond)]
    exact ih i h
  | case4 keep s e rest far hidx ih =>
    intro i h
    rw [dpLoop_cons_pop coords sqTol s e rest keep ?_]
    · exact ih i h
    · intro i2 h1
      rw [h1] at hidx
      cases hidx

/-! Case lemmas for canonicalPair and the canonical-ordering invariant. -/

theorem canonicalPair_sea (a : String) :
    canonicalPair a ("SEA") = { a := a, b := "SEA", key := a ++ "-SEA" } := by
  unfold canonicalPair
  rw [if_pos rfl]

theorem canonicalPair_of_le (a b : String) (hb : b ≠ "SEA") (hle : jsStringLe a b = true) :
    canonicalPair a b = { a := a, b := b, key := a ++ "-" ++ b } := by
  unfold canonicalPair
  rw [if_neg hb]
  simp [hle]

theorem canonicalPair_of_gt (a b : String) (hb : b ≠ "SEA") (hle : jsStringLe a b = false) :
    canonicalPair a b = { a := b, b := a, key := b ++ "-" ++ a } := by
  unfold canonicalPair
  rw [if_neg hb]
  simp [hle]

theorem createSegment_canonical (gD : Coord → Coord → ℚ) (a b : String) (coords : List Coord)
    (cnt : String → Option Nat) (hok : ReqOK a b) :
    SegCanonical (createSegment gD a b coords cnt).1 := by
  obtain ⟨haSea, hb⟩ := hok
  constructor
  · rw [createSegment_fst_country_a, createSegment_fst_country_b]
    rcases hb with hbSea | ⟨hab, hbSea⟩
    · subst hbSea
      rw [canonicalPair_sea]
      exact haSea
    · rcases hle : jsStringLe a b with h | h
      · rw [canonicalPair_of_gt a b hbSea hle]
        exact hab.symm
      · rw [canonicalPair_of_le a b hbSea hle]
        exact hab
  · intro hne
    rw [createSegment_fst_country_a, createSegment_fst_country_b,
      createSegment_fst_id] at *
    rcases hb with hbSea | ⟨hab, hbSea⟩
    · subst hbSea
      rw [canonicalPair_sea] at hne ⊢
      exact absurd rfl hne
    · rcases hle : jsStringLe a b with h | h
      · rw [canonicalPair_of_gt a b hbSea hle]
        refine ⟨?_, rfl, rfl⟩
        exact jsStringLt_of_le_ne b a (jsStringLe_of_not a b hle) (Ne.symm hab)
      · rw [canonicalPair_of_le a b hbSea hle]
        refine ⟨?_, rfl, rfl⟩
        exact jsStringLt_of_le_ne a b hle hab

theorem emitSegment_all (gD : Coord → Coord → ℚ) (a b : String) (coords : List Coord)
    (st : ExtractState) (P : BorderSegment → Prop)
    (hnew : ∀ cnt, P (createSegment gD a b coords cnt).1)
    (h : ∀ s ∈ st.1, P s) : ∀ s ∈ (emitSegment gD a b coords st).1, P s := by
  rw [emitSegment_eq]
  intro s hs
  rcases List.mem_append.mp hs with h1 | h1
  · exact h s h1
  · rw [List.mem_singleton] at h1
    subst h1
    exact hnew st.2

theorem assignCountryLookup_some (countries : List Country) (features : Nat → Feature)
    (numGeoms i : Nat) (c : Country)
    (h : assignCountryLookup countries features numGeoms i = some c) :
    matchCountry countries features i = some c := by
  unfold assignCountryLookup at h
  split at h
  · exact h
  · cases h

/-! Shapes of the query operations on an initialized cache. -/

theorem getBorderIndex_some (idx : BorderIndex) : getBorderIndex (some idx) = .ok idx := rfl

theorem getAllBorderSegments_some (idx : BorderIndex) :
    getAllBorderSegments (some idx) = .ok idx.segments := rfl

theorem getBorderSegmentsForCountry_some (idx : BorderIndex) (c : String) :
    getBorderSegmentsForCountry (some idx) c = .ok (idx.byCountry c) := rfl

theorem getBorderSegmentsBetween_some (idx : BorderIndex) (a b : String) :
    getBorderSegmentsBetween (some idx) a b = .ok (idx.byPair (canonicalPair a b).key) := by
  unfold getBorderSegmentsBetween assertCache
  show Except.ok _ = _
  rw [← canonicalPair_key]
  simp

/-! Lifecycle lemmas for the process-wide cache. -/

theorem initializeBorderIndex_snd_fail (gD : Coord → Coord → ℚ) (opts : InitializeBorderOptions)
    (cache : Option BorderIndex) (h : initSucceeds gD opts = false) :
    (initializeBorderIndex gD opts cache).2 = cache := by
  unfold initSucceeds at h
  unfold initializeBorderIndex
  cases hex : extractBorderSegments gD opts.countries opts.topojsonHigh opts.topojsonLow with
  | error e => rfl
  | ok r => rw [hex] at h; simp [Except.toOption] at h

theorem initializeBorderIndex_succ (gD : Coord → Coord → ℚ) (opts : InitializeBorderOptions)
    (cache : Option BorderIndex) (h : initSucceeds gD opts = true) :
    ∃ idx, initializeBorderIndex gD opts cache = (.ok idx, some idx) := by
  unfold initSucceeds at h
  unfold initializeBorderIndex
  cases hex : extractBorderSegments gD opts.countries opts.topojsonHigh opts.topojsonLow with
  | error e => rw [hex] at h; simp [Except.toOption] at h
  | ok r => exact ⟨buildIndex r.segments, rfl⟩

theorem runInitsFrom_isSome (gD : Coord → Coord → ℚ) :
    ∀ (inits : List InitializeBorderOptions) (c : Option BorderIndex), c.isSome = true →
      ((inits.foldl (fun cache opts => (initializeBorderIndex gD opts cache).2) c).isSome
        = true) := by
  intro inits
  induction inits with
  | nil => intro c hc; exact hc
  | cons o tl ih =>
    intro c hc
    rw [List.foldl_cons]
    apply ih
    unfold initializeBorderIndex
    cases hex : extractBorderSegments gD o.countries o.topojsonHigh o.topojsonLow with
    | error e => exact hc
    | ok r => rfl

theorem runInits_none_iff (gD : Coord → Coord → ℚ) (inits : List InitializeBorderOptions) :
    runInits gD inits = none ↔ ∀ o ∈ inits, initSucceeds gD o = false := by
  unfold runInits
  induction inits with
  | nil => simp
  | cons o tl ih =>
    rw [List.foldl_cons]
    by_cases hsucc : initSucceeds gD o = true
    · obtain ⟨idx, hinit⟩ := initializeBorderIndex_succ gD o none hsucc
      rw [hinit]
      constructor
      · intro h
        have hs := runInitsFrom_isSome gD tl (some idx) rfl
        rw [h] at hs
        cases hs
      · intro hall
        have := hall o (List.mem_cons_self o tl)
        rw [hsucc] at this
        cases this
    · have hfail : initSucceeds gD o = false := by
        cases hs : initSucceeds gD o
        · rfl
        · exact absurd hs hsucc
      rw [initializeBorderIndex_snd_fail gD o none hfail, ih]
      constructor
      · intro h o2 ho2
        rcases List.mem_cons.mp ho2 with he | ht
        · subst he; exact hfail
        · exact h o2 ht
      · intro h o2 ho2
        exact h o2 (List.mem_cons_of_mem o ho2)

/-! The extraction invariant holds for every run of the pipeline. -/

theorem extractCore_EmitInv (gD : Coord → Coord → ℚ) (countries : List Country)
    (topoHigh : Topology) (n : Nat) : EmitInv (extractCore gD countries topoHigh n) := by
  have h0 : EmitInv ([], fun _ => none) := by
    constructor
    · intro k
      simp [ContigState]
    · show (List.map _ []).Nodup
      simp
  exact extractCore_inv gD countries topoHigh n EmitInv h0
    (fun st i hst => landStep_pres gD topoHigh _ EmitInv i
      (fun j cA cB _ _ _ _ coords st2 h2 => emitSegment_EmitInv gD _ _ coords st2 h2) st hst)
    (fun st i hst => coastStep_pres gD topoHigh _ EmitInv i
      (fun c _ coords st2 h2 => emitSegment_EmitInv gD _ _ coords st2 h2) st hst)

/-- C1: for every segment list the extractor produces (hence the list served
by getAllBorderSegments after initializeBorderIndex), the formatted
segment id strings, formatBorderSegmentId applied to each id, are pairwise
distinct across the full list. -/
theorem C1_formatted_segment_ids_distinct (gD : Coord → Coord → ℚ) (countries : List Country)
    (topoHigh : Topology) (topoLow : Option Topology) (r : BorderExtractionResult)
    (h : extractBorderSegments gD countries topoHigh topoLow = .ok r) :
    (r.segments.map fun s => formatBorderSegmentId s.id).Nodup := by
  obtain ⟨n, ⟨key, hres⟩, hsegs⟩ := extract_ok_elim gD countries topoHigh topoLow r h
  rw [hsegs, List.map_map]
  have hcomp : ((fun s => formatBorderSegmentId s.id) ∘ ensureSegmentKey) =
      fun s : BorderSegment => formatBorderSegmentId s.id := by
    funext s
    simp [Function.comp, ensureSegmentKey_id]
  rw [hcomp]
  exact (extractCore_EmitInv gD countries topoHigh n).2

/-- Witness for C1 at the two-country demo topology. -/
theorem C1_formatted_segment_ids_distinct_witness :
    (demoResult.segments.map fun s => formatBorderSegmentId s.id).Nodup :=
  C1_formatted_segment_ids_distinct zeroDist demoCountries demoTopology none demoResult rfl

/-- C4: in every extracted segment list, for each fixed canonical pair key the
index values of the segments carrying that key, read in list order, are
exactly 0, 1, ... with no gaps; discarded lines never consume an index, which
is what makes the range exact. -/
theorem C4_indices_contiguous (gD : Coord → Coord → ℚ) (countries : List Country)
    (topoHigh : Topology) (topoLow : Option Topology) (r : BorderExtractionResult)
    (h : extractBorderSegments gD countries topoHigh topoLow = .ok r) :
    ∀ key : String,
      ((r.segments.filter fun s => pairKeyOf s = key).map fun s => s.id.index) =
        List.range (r.segments.filter fun s => pairKeyOf s = key).length := by
  obtain ⟨n, ⟨k0, hres⟩, hsegs⟩ := extract_ok_elim gD countries topoHigh topoLow r h
  intro key
  rw [hsegs, List.filter_map]
  have hpred : ((fun s => decide (pairKeyOf s = key)) ∘ ensureSegmentKey) =
      fun s : BorderSegment => decide (pairKeyOf s = key) := by
    funext s
    simp [Function.comp, pairKeyOf, ensureSegmentKey_id]
  rw [hpred, List.map_map, List.length_map]
  have hidx : ((fun s => s.id.index) ∘ ensureSegmentKey) =
      fun s : BorderSegment => s.id.index := by
    funext s
    simp [Function.comp, ensureSegmentKey_id]
  rw [hidx]
  have h1 := (extractCore_EmitInv gD countries topoHigh n).1 key
  rw [h1]
  congr 1
  have hlen := congrArg List.length h1
  rw [List.length_map, List.length_range] at hlen
  exact hlen.symm

/-- Witness for C4 at the two-country demo topology and its land pair key. -/
theorem C4_indices_contiguous_witness :
    ((demoResult.segments.filter fun s => pairKeyOf s = "AAA-BBB").map fun s => s.id.index) =
      List.range (demoResult.segments.filter fun s => pairKeyOf s = "AAA-BBB").length :=
  C4_indices_contiguous zeroDist demoCountries demoTopology none demoResult rfl ("AAA-BBB")

/-- Counterexample for C2 as stated: buildIndex over a segment list whose pair
is stored in non-canonical order indexes the segment, yet the pair query for
its own two countries returns the empty list, so the round-trip consequent of
the claim fails without a canonicity hypothesis. -/
theorem C2_counterexample_noncanonical :
    segBA ∈ (buildIndex [segBA]).segments ∧
      (getBorderSegmentsBetween (some (buildIndex [segBA])) segBA.country_a
        segBA.country_b).toOption = some [] := by
  constructor
  · decide
  · decide

/-- C2 (amended): byCountry contains exactly the segments in which the country
appears as country_a or as a non-SEA country_b, byPair contains exactly the
segments whose pair key string matches, and the query round-trips hold, the
pair query under the proviso that the segment pair is canonically ordered or
maritime. -/
theorem C2_index_membership_roundtrip (segs : List BorderSegment) :
    (∀ (X : String) (s : BorderSegment),
      s ∈ (buildIndex segs).byCountry X ↔
        s ∈ segs ∧ (s.country_a = X ∨ (s.country_b ≠ "SEA" ∧ s.country_b = X))) ∧
    (∀ (k : String) (s : BorderSegment),
      s ∈ (buildIndex segs).byPair k ↔ s ∈ segs ∧ s.country_a ++ "-" ++ s.country_b = k) ∧
    (∀ s ∈ segs,
      ∃ l, getBorderSegmentsForCountry (some (buildIndex segs)) s.country_a = .ok l ∧ s ∈ l) ∧
    (∀ s ∈ segs, s.country_b ≠ "SEA" →
      ∃ l, getBorderSegmentsForCountry (some (buildIndex segs)) s.country_b = .ok l ∧ s ∈ l) ∧
    (∀ s ∈ segs, (s.country_b = "SEA" ∨ jsStringLe s.country_a s.country_b = true) →
      ∃ l, getBorderSegmentsBetween (some (buildIndex segs)) s.country_a s.country_b = .ok l ∧
        s ∈ l) := by
  refine ⟨mem_buildIndex_byCountry segs, mem_buildIndex_byPair segs, ?_, ?_, ?_⟩
  · intro s hs
    exact ⟨_, getBorderSegmentsForCountry_some _ _,
      (mem_buildIndex_byCountry segs s.country_a s).mpr ⟨hs, Or.inl rfl⟩⟩
  · intro s hs hne
    exact ⟨_, getBorderSegmentsForCountry_some _ _,
      (mem_buildIndex_byCountry segs s.country_b s).mpr ⟨hs, Or.inr ⟨hne, rfl⟩⟩⟩
  · intro s hs hcanon
    refine ⟨_, getBorderSegmentsBetween_some _ _ _, ?_⟩
    refine (mem_buildIndex_byPair segs _ s).mpr ⟨hs, ?_⟩
    rw [canonicalPair_key]
    by_cases hb : s.country_b = "SEA"
    · rw [hb, canonicalPair_sea]
    · rcases hcanon with hb2 | hle
      · exact absurd hb2 hb
      · rw [canonicalPair_of_le s.country_a s.country_b hb hle]

/-- Witness for C2 at a one-segment index. -/
theorem C2_index_membership_roundtrip_witness :
    sampleLowSeg ∈ (buildIndex [sampleLowSeg]).byCountry ("AAA") ∧
      sampleLowSeg ∈ (buildIndex [sampleLowSeg]).byPair ("AAA-BBB") ∧
      (∃ l, getBorderSegmentsBetween (some (buildIndex [sampleLowSeg])) ("AAA") ("BBB") =
        .ok l ∧ sampleLowSeg ∈ l) := by
  refine ⟨?_, ?_, ?_⟩
  · exact ((C2_index_membership_roundtrip [sampleLowSeg]).1 ("AAA") sampleLowSeg).mpr
      ⟨by decide, Or.inl rfl⟩
  · exact ((C2_index_membership_roundtrip [sampleLowSeg]).2.1 ("AAA-BBB") sampleLowSeg).mpr
      ⟨by decide, by decide⟩
  · exact (C2_index_membership_roundtrip [sampleLowSeg]).2.2.2.2 sampleLowSeg (by decide)
      (Or.inr (by decide))

/-- C3: every query operation returns the not-initialized error while no
initializeBorderIndex call has succeeded in the process, and succeeds (never
returns that error) once some initializeBorderIndex call has succeeded. -/
theorem C3_queries_require_init (gD : Coord → Coord → ℚ)
    (inits : List InitializeBorderOptions) :
    ((∀ o ∈ inits, initSucceeds gD o = false) →
      getBorderIndex (runInits gD inits) = .error notInitializedMsg ∧
      getAllBorderSegments (runInits gD inits) = .error notInitializedMsg ∧
      (∀ c, getBorderSegmentsForCountry (runInits gD inits) c = .error notInitializedMsg) ∧
      (∀ a b, getBorderSegmentsBetween (runInits gD inits) a b = .error notInitializedMsg)) ∧
    ((∃ o ∈ inits, initSucceeds gD o = true) →
      (getBorderIndex (runInits gD inits)).toOption.isSome = true ∧
      (getAllBorderSegments (runInits gD inits)).toOption.isSome = true ∧
      (∀ c, (getBorderSegmentsForCountry (runInits gD inits) c).toOption.isSome = true) ∧
      (∀ a b, (getBorderSegmentsBetween (runInits gD inits) a b).toOption.isSome = true)) := by
  constructor
  · intro hall
    have hnone : runInits gD inits = none := (runInits_none_iff gD inits).mpr hall
    rw [hnone]
    exact ⟨rfl, rfl, fun c => rfl, fun a b => rfl⟩
  · intro hex
    have hnn : runInits gD inits ≠ none := by
      intro hn
      obtain ⟨o, ho, hsucc⟩ := hex
      have := (runInits_none_iff gD inits).mp hn o ho
      rw [hsucc] at this
      cases this
    obtain ⟨idx, hidx2⟩ := Option.ne_none_iff_exists.mp hnn
    rw [← hidx2]
    exact ⟨rfl, rfl, fun c => rfl, fun a b => rfl⟩

/-- Witness for C3: one failing trace leaves every query failing with the
not-initialized error, one successful trace makes the queries succeed. -/
theorem C3_queries_require_init_witness :
    getBorderIndex (runInits zeroDist [failOptions]) = .error notInitializedMsg ∧
      (getBorderIndex (runInits zeroDist [demoOptions])).toOption.isSome = true := by
  constructor
  · exact ((C3_queries_require_init zeroDist [failOptions]).1 (by decide)).1
  · exact ((C3_queries_require_init zeroDist [demoOptions]).2
      ⟨demoOptions, List.mem_cons_self demoOptions [], by decide⟩).1

/-- Helper for the C5 witness: the demo matching function resolves geometry 0
to the first demo country, geometry 1 to the second, and nothing else. -/
theorem demo_matchCountry_eq : ∀ m : Nat, matchCountry demoCountries demoTopology.features m =
    if m = 0 then some { country_id := "AAA", name := "Aland", geometry_ref := "AAA" }
    else if m = 1 then some { country_id := "BBB", name := "Borduria", geometry_ref := "BBB" }
    else none := by
  intro m
  by_cases h0 : m = 0
  · subst h0; decide
  · by_cases h1 : m = 1
    · subst h1; decide
    · rw [if_neg h0, if_neg h1]
      have hf : demoTopology.features m = { id := none, name := none } := by
        show (if m = 0 then _ else if m = 1 then _ else _) = _
        rw [if_neg h0, if_neg h1]
      unfold matchCountry
      rw [hf]
      decide

/-- Counterexample for C5 as stated: a topology in which two adjacent
geometries match the same country record produces a segment whose two country
fields coincide. -/
theorem C5_counterexample :
    extractBorderSegments zeroDist dupCountries dupTopology none = .ok dupResult ∧
      dupSegment ∈ dupResult.segments ∧ dupSegment.country_a = dupSegment.country_b := by
  have hlen : dupResult.segments.length = 1 := by decide
  have hne : dupResult.segments ≠ [] := by
    intro hnil
    rw [hnil] at hlen
    cases hlen
  exact ⟨rfl, headD_mem dupResult.segments dummySegment hne, by decide⟩

/-- C5 (amended): provided distinct geometries never match countries with the
same identifier, the adjacency is irreflexive, and no matched country is
named SEA, every extracted segment has distinct country fields, and every
non-maritime segment is strictly sorted with id fields matching. -/
theorem C5_canonical_ordering (gD : Coord → Coord → ℚ) (countries : List Country)
    (topoHigh : Topology) (topoLow : Option Topology) (r : BorderExtractionResult)
    (h : extractBorderSegments gD countries topoHigh topoLow = .ok r)
    (Hdist : ∀ i j, i ≠ j → ∀ cA cB, matchCountry countries topoHigh.features i = some cA →
      matchCountry countries topoHigh.features j = some cB → cA.country_id ≠ cB.country_id)
    (Hirr : ∀ i, i ∉ topoHigh.neighborList i)
    (HnoSea : ∀ i c, matchCountry countries topoHigh.features i = some c →
      c.country_id ≠ "SEA") :
    ∀ s ∈ r.segments, s.country_a ≠ s.country_b ∧
      (s.country_b ≠ "SEA" →
        jsStringLt s.country_a s.country_b = true ∧
          s.id.country_a = s.country_a ∧ s.id.country_b = s.country_b) := by
  obtain ⟨n, ⟨k0, hres⟩, hsegs⟩ := extract_ok_elim gD countries topoHigh topoLow r h
  have hinv : ∀ s ∈ (extractCore gD countries topoHigh n).1, SegCanonical s := by
    refine extractCore_inv gD countries topoHigh n (fun st => ∀ s ∈ st.1, SegCanonical s)
      ?_ ?_ ?_
    · intro s hs; cases hs
    · intro st i hst
      refine landStep_pres gD topoHigh (assignCountryLookup countries topoHigh.features n)
        (fun st => ∀ s ∈ st.1, SegCanonical s) i ?_ st hst
      intro j cA cB hj hnlt hgi hgj coords st2 h2
      refine emitSegment_all gD _ _ coords st2 SegCanonical ?_ h2
      intro cnt
      apply createSegment_canonical
      have hij : i ≠ j := by
        intro he
        exact Hirr i (he ▸ hj)
      have hmA := assignCountryLookup_some _ _ _ _ _ hgi
      have hmB := assignCountryLookup_some _ _ _ _ _ hgj
      exact ⟨HnoSea i cA hmA, Or.inr ⟨Hdist i j hij cA cB hmA hmB, HnoSea j cB hmB⟩⟩
    · intro st i hst
      refine coastStep_pres gD topoHigh (assignCountryLookup countries topoHigh.features n)
        (fun st => ∀ s ∈ st.1, SegCanonical s) i ?_ st hst
      intro c hgi coords st2 h2
      refine emitSegment_all gD _ _ coords st2 SegCanonical ?_ h2
      intro cnt
      apply createSegment_canonical
      exact ⟨HnoSea i c (assignCountryLookup_some _ _ _ _ _ hgi), Or.inl rfl⟩
  intro s hs
  rw [hsegs] at hs
  obtain ⟨s0, hs0, hmap⟩ := List.mem_map.mp hs
  have hc : SegCanonical (ensureSegmentKey s0) := by
    have hc0 := hinv s0 hs0
    unfold SegCanonical at hc0 ⊢
    rw [ensureSegmentKey_country_a, ensureSegmentKey_country_b, ensureSegmentKey_id]
    exact hc0
  rw [← hmap]
  exact hc

/-- Witness for C5 at the two-country demo topology and its land segment. -/
theorem C5_canonical_ordering_witness :
    demoLandSegment.country_a ≠ demoLandSegment.country_b ∧
      (demoLandSegment.country_b ≠ "SEA" →
        jsStringLt demoLandSegment.country_a demoLandSegment.country_b = true ∧
          demoLandSegment.id.country_a = demoLandSegment.country_a ∧
          demoLandSegment.id.country_b = demoLandSegment.country_b) := by
  have hlen : demoResult.segments.length = 3 := by decide
  have hne : demoResult.segments ≠ [] := by
    intro hnil
    rw [hnil] at hlen
    cases hlen
  refine C5_canonical_ordering zeroDist demoCountries demoTopology none demoResult rfl
    ?_ ?_ ?_ demoLandSegment (headD_mem demoResult.segments dummySegment hne)
  · intro i j hij cA cB hci hcj
    rw [demo_matchCountry_eq] at hci hcj
    by_cases hi0 : i = 0
    · rw [if_pos hi0] at hci
      by_cases hj0 : j = 0
      · exact absurd (hi0.trans hj0.symm) hij
      · rw [if_neg hj0] at hcj
        by_cases hj1 : j = 1
        · rw [if_pos hj1] at hcj
          cases hci
          cases hcj
          decide
        · rw [if_neg hj1] at hcj
          cases hcj
    · rw [if_neg hi0] at hci
      by_cases hi1 : i = 1
      · rw [if_pos hi1] at hci
        by_cases hj0 : j = 0
        · rw [if_pos hj0] at hcj
          cases hci
          cases hcj
          decide
        · rw [if_neg hj0] at hcj
          by_cases hj1 : j = 1
          · exact absurd (hi1.trans hj1.symm) hij
          · rw [if_neg hj1] at hcj
            cases hcj
      · rw [if_neg hi1] at hci
        cases hci
  · intro i
    show i ∉ (if i = 0 then [1] else if i = 1 then [0] else [])
    by_cases hi0 : i = 0
    · subst hi0; decide
    · by_cases hi1 : i = 1
      · subst hi1; decide
      · rw [if_neg hi0, if_neg hi1]
        simp
  · intro i c hc
    rw [demo_matchCountry_eq] at hc
    by_cases hi0 : i = 0
    · rw [if_pos hi0] at hc
      cases hc
      decide
    · rw [if_neg hi0] at hc
      by_cases hi1 : i = 1
      · rw [if_pos hi1] at hc
        cases hc
        decide
      · rw [if_neg hi1] at hc
        cases hc

/-- C6: for every input of length at least 3, simplifyLine returns a
subsequence of the input, in original order, that contains the first and the
last point and whose length never exceeds the length of the input; every
input of length at most 2 is returned unchanged.  The properties are proved
for every tolerance; simplifyLine is the instance at the default 0.05. -/
theorem C6_simplify_contract (coords : List Coord) (tol : ℚ) :
    simplifyLine coords = simplifyLineWith coords (5 / 100) ∧
    (coords.length ≤ 2 → simplifyLineWith coords tol = coords) ∧
    (∀ hne : coords ≠ [], 3 ≤ coords.length →
      (simplifyLineWith coords tol).Sublist coords ∧
      coords.head hne ∈ simplifyLineWith coords tol ∧
      coords.getLast hne ∈ simplifyLineWith coords tol ∧
      (simplifyLineWith coords tol).length ≤ coords.length) := by
  refine ⟨rfl, ?_, ?_⟩
  · intro hlen
    unfold simplifyLineWith
    rw [if_pos hlen]
  · intro hne h3
    have hlen : ¬coords.length ≤ 2 := by omega
    have heq : simplifyLineWith coords tol =
        (coords.enum.filter fun p =>
          dpLoop coords (tol * tol) [(0, coords.length - 1)]
            (fun i => i == 0 || i == coords.length - 1) p.1).map (fun p => p.2) := by
      unfold simplifyLineWith
      rw [if_neg hlen]
    have hsub : (simplifyLineWith coords tol).Sublist coords := by
      rw [heq]
      have h1 := List.Sublist.map (fun p : Nat × Coord => p.2)
        (List.filter_sublist (p := fun p =>
          dpLoop coords (tol * tol) [(0, coords.length - 1)]
            (fun i => i == 0 || i == coords.length - 1) p.1) coords.enum)
      have h2 : (coords.enum.map fun p : Nat × Coord => p.2) = coords := List.enum_map_snd coords
      rw [h2] at h1
      exact h1
    refine ⟨hsub, ?_, ?_, List.Sublist.length_le hsub⟩
    · have hk0 : dpLoop coords (tol * tol) [(0, coords.length - 1)]
          (fun i => i == 0 || i == coords.length - 1) 0 = true :=
        dpLoop_mono coords (tol * tol) _ _ 0 (by simp)
      have hlt : 0 < coords.enum.length := by
        rw [List.enum_length]
        omega
      have hmem : coords.enum[0] ∈ coords.enum := List.getElem_mem hlt
      rw [List.getElem_enum] at hmem
      rw [heq, List.head_eq_getElem]
      exact List.mem_map_of_mem _ (List.mem_filter.mpr ⟨hmem, hk0⟩)
    · have hkn : dpLoop coords (tol * tol) [(0, coords.length - 1)]
          (fun i => i == 0 || i == coords.length - 1) (coords.length - 1) = true :=
        dpLoop_mono coords (tol * tol) _ _ (coords.length - 1) (by simp)
      have hlt : coords.length - 1 < coords.enum.length := by
        rw [List.enum_length]
        omega
      have hmem : coords.enum[coords.length - 1] ∈ coords.enum := List.getElem_mem hlt
      rw [List.getElem_enum] at hmem
      rw [heq, List.getLast_eq_getElem]
      exact List.mem_map_of_mem _ (List.mem_filter.mpr ⟨hmem, hkn⟩)

/-- Witness for C6 at a two-point and a three-point line. -/
theorem C6_simplify_contract_witness :
    simplifyLineWith ([(0, 0), (1, 1)] : List Coord) (5 / 100) = [(0, 0), (1, 1)] ∧
    (simplifyLineWith ([(0, 0), (1, 1), (2, 0)] : List Coord) (5 / 100)).Sublist
      [(0, 0), (1, 1), (2, 0)] ∧
    ((0, 0) : Coord) ∈ simplifyLineWith ([(0, 0), (1, 1), (2, 0)] : List Coord) (5 / 100) ∧
    ((2, 0) : Coord) ∈ simplifyLineWith ([(0, 0), (1, 1), (2, 0)] : List Coord) (5 / 100) ∧
    (simplifyLineWith ([(0, 0), (1, 1), (2, 0)] : List Coord) (5 / 100)).length ≤ 3 := by
  have h2 := (C6_simplify_contract ([(0, 0), (1, 1)] : List Coord) (5 / 100)).2.1 (by decide)
  have h3 := (C6_simplify_contract ([(0, 0), (1, 1), (2, 0)] : List Coord) (5 / 100)).2.2
    (by decide) (by decide)
  exact ⟨h2, h3.1, h3.2.1, h3.2.2.1, h3.2.2.2⟩

/-- C7: selectLOD maps zoom below 1.5 to low, from 1.5 up to but excluding 3
to medium, and from 3 on to high; getBorderSegmentGeometryForLOD returns the
low resolution coordinates exactly when the selected tier is low and they are
present and non-empty, returns the hi-res coordinates in every other case,
and never returns an empty sequence when the hi-res coordinates are
non-empty. -/
theorem C7_lod_selection :
    (∀ z : ℚ, z < 3 / 2 → selectLOD z = .low) ∧
    (∀ z : ℚ, 3 / 2 ≤ z → z < 3 → selectLOD z = .medium) ∧
    (∀ z : ℚ, 3 ≤ z → selectLOD z = .high) ∧
    (∀ (seg : BorderSegment) (z : ℚ),
      (∀ l, seg.geometry.coords_low_res = some l → l ≠ [] → selectLOD z = .low →
        getBorderSegmentGeometryForLOD seg z = l) ∧
      (selectLOD z ≠ .low →
        getBorderSegmentGeometryForLOD seg z = seg.geometry.coords_hi_res) ∧
      (seg.geometry.coords_low_res = none →
        getBorderSegmentGeometryForLOD seg z = seg.geometry.coords_hi_res) ∧
      (seg.geometry.coords_low_res = some [] →
        getBorderSegmentGeometryForLOD seg z = seg.geometry.coords_hi_res) ∧
      (seg.geometry.coords_hi_res ≠ [] → getBorderSegmentGeometryForLOD seg z ≠ [])) := by
  refine ⟨?_, ?_, ?_, ?_⟩
  · intro z hz
    unfold selectLOD
    rw [if_neg (by linarith), if_neg (by linarith)]
  · intro z h1 h2
    unfold selectLOD
    rw [if_neg (by linarith), if_pos h1]
  · intro z h
    unfold selectLOD
    rw [if_pos h]
  · intro seg z
    refine ⟨?_, ?_, ?_, ?_, ?_⟩
    · intro l hl hlne hlow
      unfold getBorderSegmentGeometryForLOD
      rw [hl]
      dsimp only
      rw [if_pos ⟨hlow, fun h0 => hlne (List.length_eq_zero.mp h0)⟩]
    · intro hlnot
      rcases hl : seg.geometry.coords_low_res with _ | l
      · unfold getBorderSegmentGeometryForLOD
        rw [hl]
      · unfold getBorderSegmentGeometryForLOD
        rw [hl]
        dsimp only
        rw [if_neg (fun hc => hlnot hc.1)]
    · intro hl
      unfold getBorderSegmentGeometryForLOD
      rw [hl]
    · intro hl
      unfold getBorderSegmentGeometryForLOD
      rw [hl]
      dsimp only
      rw [if_neg (fun hc => hc.2 rfl)]
    · intro hhi
      rcases hl : seg.geometry.coords_low_res with _ | l
      · unfold getBorderSegmentGeometryForLOD
        rw [hl]
        exact hhi
      · unfold getBorderSegmentGeometryForLOD
        rw [hl]
        dsimp only
        split
        · rename_i hc
          intro he
          exact hc.2 (by rw [he]; rfl)
        · exact hhi

/-- Witness for C7 at concrete zooms and a segment with non-empty low
resolution geometry. -/
theorem C7_lod_selection_witness :
    selectLOD 1 = .low ∧ selectLOD 2 = .medium ∧ selectLOD 4 = .high ∧
      getBorderSegmentGeometryForLOD sampleLowSeg 1 = [(0, 0), (2, 2)] ∧
      getBorderSegmentGeometryForLOD sampleLowSeg 4 = sampleLowSeg.geometry.coords_hi_res := by
  have hlow : selectLOD 1 = .low := C7_lod_selection.1 1 (by norm_num)
  have hhigh : selectLOD 4 = .high := C7_lod_selection.2.2.1 4 (by norm_num)
  refine ⟨hlow, C7_lod_selection.2.1 2 (by norm_num) (by norm_num), hhigh, ?_, ?_⟩
  · exact (C7_lod_selection.2.2.2 sampleLowSeg 1).1 [(0, 0), (2, 2)] rfl (by decide) hlow
  · refine (C7_lod_selection.2.2.2 sampleLowSeg 4).2.1 ?_
    intro h
    rw [hhigh] at h
    cases h

/-- Counterexample for C8 as stated: after initializing on a topology with a
country literally named SEA, the pair query is not symmetric, because the
query canonicalizes a pair whose second member is the literal SEA without
sorting. -/
theorem C8_counterexample :
    (getBorderSegmentsBetween seaCache ("SEA") ("ZZZ")).toOption ≠
      (getBorderSegmentsBetween seaCache ("ZZZ") ("SEA")).toOption := by
  decide

/-- C8 (amended): for every cache state and every pair of country identifiers
neither of which is the reserved SEA marker, the pair query is symmetric in
its two arguments. -/
theorem C8_between_symmetric (cache : Option BorderIndex) (a b : String)
    (ha : a ≠ "SEA") (hb : b ≠ "SEA") :
    getBorderSegmentsBetween cache a b = getBorderSegmentsBetween cache b a := by
  unfold getBorderSegmentsBetween
  rw [canonicalPair_comm a b ha hb]

/-- Witness for C8 on the demo index. -/
theorem C8_between_symmetric_witness :
    getBorderSegmentsBetween (some demoIdx) ("AAA") ("BBB") =
      getBorderSegmentsBetween (some demoIdx) ("BBB") ("AAA") :=
  C8_between_symmetric (some demoIdx) ("AAA") ("BBB") (by decide) (by decide)

theorem resolveCountryObject_none_iff (topo : Topology) :
    resolveCountryObject topo = none ↔ topo.objects = [] := by
  unfold resolveCountryObject
  cases hobj : topo.objects with
  | nil => simp
  | cons kv tl =>
    constructor
    · intro h
      cases hf : ((kv :: tl).find? fun kv2 => countryLikeKey kv2.1) with
      | none => rw [hf] at h; simp [Option.orElse] at h
      | some v => rw [hf] at h; simp [Option.orElse] at h
    · intro h
      cases h

/-- Counterexample for C9 as stated: a topology whose only object key is not
country-like does not make initializeBorderIndex throw; the code falls back
to the first object and succeeds. -/
theorem C9_counterexample :
    (noCountryTopology.objects.find? fun kv => countryLikeKey kv.1) = none ∧
      (initializeBorderIndex zeroDist noCountryOptions none).1.toOption.isSome = true := by
  constructor
  · decide
  · decide

/-- C9 (amended): initializeBorderIndex throws exactly when the topology has
no object at all to resolve, or when the resolved object has no geometries
array; a merely missing country-like key falls back to the first object
without error. -/
theorem C9_malformed_topology (gD : Coord → Coord → ℚ) (opts : InitializeBorderOptions)
    (cache : Option BorderIndex) :
    (initializeBorderIndex gD opts cache).1.toOption.isSome = false ↔
      (opts.topojsonHigh.objects = [] ∨
        ∃ k, resolveCountryObject opts.topojsonHigh = some (k, none)) := by
  unfold initializeBorderIndex extractBorderSegments
  cases hres : resolveCountryObject opts.topojsonHigh with
  | none =>
    constructor
    · intro _
      exact Or.inl ((resolveCountryObject_none_iff opts.topojsonHigh).mp hres)
    · intro _
      rfl
  | some kv =>
    obtain ⟨k, g⟩ := kv
    cases g with
    | none =>
      constructor
      · intro _
        exact Or.inr ⟨k, rfl⟩
      · intro _
        rfl
    | some n =>
      constructor
      · intro h
        cases (show (true : Bool) = false from h)
      · intro h
        exfalso
        rcases h with h1 | ⟨k2, h2⟩
        · rw [(resolveCountryObject_none_iff opts.topojsonHigh).mpr h1] at hres
          cases hres
        · injection h2 with h3
          injection h3 with h4 h5
          cases h5

/-- C10: after a successful initializeBorderIndex call, the per-country query
for a country appearing in no segment and the per-pair query for a pair with
no segments both return the empty list instead of failing. -/
theorem C10_unknown_queries_empty (gD : Coord → Coord → ℚ) (opts : InitializeBorderOptions)
    (cache cache2 : Option BorderIndex) (idx : BorderIndex)
    (h : initializeBorderIndex gD opts cache = (.ok idx, cache2)) :
    (∀ c, (∀ s ∈ idx.segments, s.country_a ≠ c ∧ s.country_b ≠ c) →
      getBorderSegmentsForCountry cache2 c = .ok []) ∧
    (∀ a b, (∀ s ∈ idx.segments, s.country_a ++ "-" ++ s.country_b ≠ (canonicalPair a b).key) →
      getBorderSegmentsBetween cache2 a b = .ok []) := by
  unfold initializeBorderIndex at h
  cases hex : extractBorderSegments gD opts.countries opts.topojsonHigh opts.topojsonLow with
  | error e =>
    rw [hex] at h
    dsimp only at h
    simp [Prod.ext_iff] at h
  | ok r =>
    rw [hex] at h
    dsimp only at h
    have h1 : buildIndex r.segments = idx := by
      have := congrArg Prod.fst h
      simpa using this
    have h2 : cache2 = some idx := by
      have hp := congrArg Prod.snd h
      rw [h1] at hp
      exact hp.symm
    subst h2
    have hsegs : idx.segments = r.segments := by
      rw [← h1]
      exact buildIndex_segments r.segments
    constructor
    · intro c hc
      rw [getBorderSegmentsForCountry_some]
      congr 1
      rw [← h1, List.eq_nil_iff_forall_not_mem]
      intro s hs
      rw [mem_buildIndex_byCountry] at hs
      obtain ⟨hmem, hcase⟩ := hs
      have hcs := hc s (by rw [hsegs]; exact hmem)
      rcases hcase with hca | ⟨_, hcb⟩
      · exact hcs.1 hca
      · exact hcs.2 hcb
    · intro a b hab
      rw [getBorderSegmentsBetween_some]
      congr 1
      rw [← h1, List.eq_nil_iff_forall_not_mem]
      intro s hs
      rw [mem_buildIndex_byPair] at hs
      exact hab s (by rw [hsegs]; exact hs.1) hs.2

/-- Witness for C10 on the demo index with unknown country identifiers. -/
theorem C10_unknown_queries_empty_witness :
    getBorderSegmentsForCountry (some demoIdx) ("QQQ") = .ok [] ∧
      getBorderSegmentsBetween (some demoIdx) ("QQQ") ("RRR") = .ok [] := by
  have h := C10_unknown_queries_empty zeroDist demoOptions none (some demoIdx) demoIdx rfl
  exact ⟨h.1 ("QQQ") (by decide), h.2 ("QQQ") ("RRR") (by decide)⟩

end Mapa
